import Mathlib

/-!
Shallow embedding of the wallet transaction sender
(src/src/wallet/WalletTransactionSender.cpp) of the lira repository.

Machine integers of the source (uint64_t, int64_t, size_t) are embedded as
Nat / Int with explicit reductions modulo 2^64 where the source can wrap.
External collaborators (the currency's address parser, the cryptographic
transaction constructor, the transfers container and the transaction cache)
are embedded as explicit parameters and as a small cache state, following
the interface the source uses.
-/

namespace CryptoNote

/-- The error codes of cryptonote::error that WalletTransactionSender raises
(ZERO_DESTINATION, WRONG_AMOUNT, SUM_OVERFLOW, BAD_ADDRESS,
MIXIN_COUNT_TOO_BIG, TRANSACTION_SIZE_TOO_BIG, INTERNAL_WALLET_ERROR,
TX_CANCELLED). -/
inductive WalletError where
  | zeroDestination
  | wrongAmount
  | sumOverflow
  | badAddress
  | mixinCountTooBig
  | transactionSizeTooBig
  | internalWalletError
  | txCancelled
deriving DecidableEq, Repr

/-- A std::error_code: none is the falsy "no error" value. -/
abbrev ErrorCode := Option WalletError

/-- Caller-supplied transfer: { address (opaque string), amount (int64_t) }.
The negative-amount check in countNeededMoney shows the amount is signed. -/
structure Transfer where
  address : String
  amount : Int
deriving DecidableEq, Repr, Inhabited

/-- A spendable coin (TransactionOutputInformation of the transfers
container), with the fields the sender reads; keys are opaque, embedded as
Nat. -/
structure TransactionOutputInformation where
  amount : Nat
  globalOutputIndex : Nat
  outputKey : Nat
  transactionPublicKey : Nat
  outputInTransaction : Nat
deriving DecidableEq, Repr, Inhabited

/-- cryptonote::tx_destination_entry { amount (uint64_t), addr }; resolved
addresses are opaque, embedded as Nat. -/
structure TxDestinationEntry where
  amount : Nat
  addr : Nat
deriving DecidableEq, Repr, Inhabited

/-- TxDustPolicy { dustThreshold, addToFee, addrForDust }. -/
structure TxDustPolicy where
  dustThreshold : Nat
  addToFee : Bool
  addrForDust : Nat
deriving DecidableEq, Repr, Inhabited

/-- Reduction of a C++ signed value implicitly converted to uint64_t. -/
def intToUInt64 (i : Int) : Nat := (i % (2 : Int) ^ 64).toNat

/-- Reinterpretation of a uint64_t value as int64_t
(static_cast in countNeededMoney's overflow check). -/
def uint64AsInt64 (n : Nat) : Int :=
  if n < 2 ^ 63 then (n : Int) else (n : Int) - 2 ^ 64

/-- Modelled from the spec: cryptonote::decompose_amount_into_digits
(cryptonote_core/cryptonote_format_utils, not under src/). It decomposes an
amount into denomination-aligned chunks digit * 10^k, accumulating into a
single dust remainder every low-order chunk that keeps the remainder within
the dust threshold, and emitting every other non-zero chunk. The loop below
walks the decimal digits of the amount, low digit first. -/
def decomposeGo (threshold : Nat) (amount : Nat) (order : Nat) (dustAcc : Nat) :
    List Nat × Nat :=
  if h : amount = 0 then ([], dustAcc)
  else
    let chunk := amount % 10 * order
    if dustAcc + chunk ≤ threshold then
      decomposeGo threshold (amount / 10) (order * 10) (dustAcc + chunk)
    else if chunk = 0 then
      decomposeGo threshold (amount / 10) (order * 10) dustAcc
    else
      let rest := decomposeGo threshold (amount / 10) (order * 10) dustAcc
      (chunk :: rest.1, rest.2)
termination_by amount
decreasing_by
  all_goals exact Nat.div_lt_self (Nat.pos_of_ne_zero h) (by omega)

/-- Modelled from the spec: decompose an amount into denomination chunks and
one dust remainder (chunk handler calls, dust handler value). -/
def decomposeAmountIntoDigits (amount : Nat) (dustThreshold : Nat) :
    List Nat × Nat :=
  decomposeGo dustThreshold amount 1 0

/-- The destination entries digitSplitStrategy emits for one requested
transfer: the address must parse, then every chunk and also the dust
remainder of the decomposed amount become entries to that address (both
handlers push into splitted_dsts for transfers). The transfer amount passes
through the implicit int64_t → uint64_t conversion of the call. -/
def transferEntries (parse : String → Option Nat) (dustThreshold : Nat)
    (t : Transfer) : Except WalletError (List TxDestinationEntry) :=
  match parse t.address with
  | none => .error .badAddress
  | some addr =>
    let d := decomposeAmountIntoDigits (intToUInt64 t.amount) dustThreshold
    .ok (d.1.map (fun c => ⟨c, addr⟩) ++
      (if d.2 ≠ 0 then [⟨d.2, addr⟩] else []))

/-- The transfer loop of digitSplitStrategy over the transaction's transfer
range. -/
def splitTransfers (parse : String → Option Nat) (dustThreshold : Nat) :
    List Transfer → Except WalletError (List TxDestinationEntry)
  | [] => .ok []
  | t :: ts =>
    match transferEntries parse dustThreshold t with
    | .error e => .error e
    | .ok es =>
      match splitTransfers parse dustThreshold ts with
      | .error e => .error e
      | .ok rest => .ok (es ++ rest)

/-- WalletTransactionSender::digitSplitStrategy, over the transfers of the
transaction's range: decomposes every transfer amount (chunks and dust both
emitted as destinations) and the change amount (chunks emitted as
destinations to the change address, dust returned in the out-parameter). -/
def digitSplitStrategy (parse : String → Option Nat) (transfers : List Transfer)
    (changeDst : TxDestinationEntry) (dustThreshold : Nat) :
    Except WalletError (List TxDestinationEntry × Nat) :=
  match splitTransfers parse dustThreshold transfers with
  | .error e => .error e
  | .ok dsts =>
    let c := decomposeAmountIntoDigits changeDst.amount dustThreshold
    .ok (dsts ++ c.1.map (fun chunk => ⟨chunk, changeDst.addr⟩), c.2)

/-- WalletTransactionSender::splitDestinations: runs digitSplitStrategy,
aborts with INTERNAL_WALLET_ERROR when the accumulated dust exceeds the
policy's threshold, and otherwise appends the dust as a destination to the
policy's dust address unless the policy folds dust into the fee. -/
def splitDestinations (parse : String → Option Nat) (transfers : List Transfer)
    (changeDts : TxDestinationEntry) (dustPolicy : TxDustPolicy) :
    Except WalletError (List TxDestinationEntry) :=
  match digitSplitStrategy parse transfers changeDts dustPolicy.dustThreshold with
  | .error e => .error e
  | .ok r =>
    if dustPolicy.dustThreshold < r.2 then
      .error .internalWalletError
    else if r.2 ≠ 0 ∧ ¬dustPolicy.addToFee then
      .ok (r.1 ++ [⟨r.2, dustPolicy.addrForDust⟩])
    else
      .ok r.1

/-- The loop of countNeededMoney: needed_money starts at the fee; every
transfer must have a non-zero, non-negative amount; the amount (int64_t) is
added into the uint64_t accumulator, and the sum is rejected as overflowing
when its int64_t reinterpretation is below the transfer amount just added. -/
def countNeededMoneyLoop (acc : Nat) : List Transfer → Except WalletError Nat
  | [] => .ok acc
  | t :: ts =>
    if t.amount = 0 then .error .zeroDestination
    else if t.amount < 0 then .error .wrongAmount
    else
      let acc2 := (acc + t.amount.toNat) % 2 ^ 64
      if uint64AsInt64 acc2 < t.amount then .error .sumOverflow
      else countNeededMoneyLoop acc2 ts

/-- countNeededMoney(fee, transfers). -/
def countNeededMoney (fee : Nat) (transfers : List Transfer) :
    Except WalletError Nat :=
  countNeededMoneyLoop fee transfers

/-- createChangeDestinations: when needed < found the change goes to the
wallet's own address with amount found - needed; otherwise the (caller
zero-initialized) entry is left untouched. -/
def createChangeDestinations (address : Nat) (neededMoney foundMoney : Nat)
    (changeDts : TxDestinationEntry) : TxDestinationEntry :=
  if neededMoney < foundMoney then ⟨foundMoney - neededMoney, address⟩
  else changeDts

/-! ### Input preparer -/

/-- cryptonote::tx_source_entry with the fields prepareInputs fills; a
candidate output reference is (global index, output key). -/
structure TxSourceEntry where
  amount : Nat
  outputs : List (Nat × Nat)
  realOutTxKey : Nat
  realOutput : Nat
  realOutputInTxIndex : Nat
deriving DecidableEq, Repr, Inhabited

/-- One step of the ascending insertion sort modelling
outs[i].outs.sort(by global_amount_index <). -/
def insertSortedOut (e : Nat × Nat) : List (Nat × Nat) → List (Nat × Nat)
  | [] => [e]
  | f :: rest => if e.1 < f.1 then e :: f :: rest else f :: insertSortedOut e rest

/-- std::list::sort of the decoy candidates by ascending global index. -/
def sortOuts : List (Nat × Nat) → List (Nat × Nat)
  | [] => []
  | e :: rest => insertSortedOut e (sortOuts rest)

/-- The decoy-copy loop of prepareInputs: walk the sorted candidates, skip
every candidate whose global index equals the real output's, push the rest,
and break as soon as the candidate list's size has reached mixIn after a
push; size is the number of outputs pushed so far. -/
def pushDecoys (realIdx mixIn : Nat) : List (Nat × Nat) → Nat → List (Nat × Nat)
  | [], _ => []
  | e :: rest, size =>
    if e.1 = realIdx then pushDecoys realIdx mixIn rest size
    else if mixIn ≤ size + 1 then [e]
    else e :: pushDecoys realIdx mixIn rest (size + 1)

/-- std::find_if position for the real output: index of the first candidate
whose global index is ≥ the real output's. -/
def insertPos (realIdx : Nat) : List (Nat × Nat) → Nat
  | [] => 0
  | e :: rest => if realIdx ≤ e.1 then 0 else insertPos realIdx rest + 1

/-- vector::insert of the real output entry before the first candidate whose
global index is ≥ its own. -/
def insertReal (real : Nat × Nat) : List (Nat × Nat) → List (Nat × Nat)
  | [] => [real]
  | e :: rest => if real.1 ≤ e.1 then real :: e :: rest else e :: insertReal real rest

/-- The body of prepareInputs for one selected coin: build the decoy list
(empty when no outs were fetched), insert the real output at its sorted
position and record that position. -/
def prepareOne (mixIn : Nat) (td : TransactionOutputInformation)
    (outsForAmount : Option (List (Nat × Nat))) : TxSourceEntry :=
  let decoys := match outsForAmount with
    | none => []
    | some l => pushDecoys td.globalOutputIndex mixIn (sortOuts l) 0
  { amount := td.amount
    outputs := insertReal (td.globalOutputIndex, td.outputKey) decoys
    realOutTxKey := td.transactionPublicKey
    realOutput := insertPos td.globalOutputIndex decoys
    realOutputInTxIndex := td.outputInTransaction }

/-- WalletTransactionSender::prepareInputs: one source entry per selected
coin; outs[i] is the decoy set fetched for the i-th coin and is only
consulted when any outs were fetched at all. -/
def prepareInputs (selectedTransfers : List TransactionOutputInformation)
    (outs : List (List (Nat × Nat))) (mixIn : Nat) : List TxSourceEntry :=
  if outs.isEmpty then
    selectedTransfers.map (fun td => prepareOne mixIn td none)
  else
    (selectedTransfers.zip outs).map (fun p => prepareOne mixIn p.1 (some p.2))

/-! ### Coin selector -/

/-- popRandomValue: draw the element at a uniformly random index (the random
draw r reduced modulo the size), replace it by the last element and shrink
the vector by one; on an empty vector the CHECK_AND_ASSERT_MES macro returns
a default value and leaves the vector empty. -/
def popRandomValue (r : Nat) (vec : List Nat) : Nat × List Nat :=
  match vec with
  | [] => (0, [])
  | _ :: _ =>
    let idx := r % vec.length
    let res := vec.getD idx 0
    let vec2 := if idx + 1 = vec.length then vec.dropLast
      else (vec.set idx (vec.getLastD 0)).dropLast
    (res, vec2)

theorem popRandomValue_length_le (r : Nat) (vec : List Nat) :
    (popRandomValue r vec).2.length ≤ vec.length := by
  cases vec with
  | nil => simp [popRandomValue]
  | cons x xs =>
    simp only [popRandomValue]
    split <;> simp [List.length_dropLast]

theorem popRandomValue_length (r : Nat) (vec : List Nat) (h : vec ≠ []) :
    (popRandomValue r vec).2.length + 1 = vec.length := by
  cases vec with
  | nil => exact absurd rfl h
  | cons x xs =>
    simp only [popRandomValue]
    split <;> simp [List.length_dropLast]

/-- The selection loop of selectTransfersToSend: while the accumulated money
is short and a pool is non-empty, draw a random index (a forced first dust
draw when selectOneDust is set, else from the spendable pool, falling back
to the dust pool), append that output and add its amount into the uint64_t
accumulator foundMoney, which wraps modulo 2^64. rng gives the random draw
of each iteration. -/
def selectLoop (rng : Nat → Nat) (outputs : List TransactionOutputInformation)
    (neededMoney : Nat) (step : Nat) (selectOneDust : Bool)
    (unusedTransfers unusedDust : List Nat) (foundMoney : Nat)
    (selected : List TransactionOutputInformation) :
    Nat × List TransactionOutputInformation :=
  if hloop : foundMoney < neededMoney ∧ (unusedTransfers ≠ [] ∨ unusedDust ≠ []) then
    if hdust : selectOneDust then
      let p := popRandomValue (rng step) unusedDust
      let out := outputs.getD p.1 default
      selectLoop rng outputs neededMoney (step + 1) false unusedTransfers p.2
        ((foundMoney + out.amount) % 2 ^ 64) (selected ++ [out])
    else if hut : unusedTransfers ≠ [] then
      let p := popRandomValue (rng step) unusedTransfers
      let out := outputs.getD p.1 default
      selectLoop rng outputs neededMoney (step + 1) false p.2 unusedDust
        ((foundMoney + out.amount) % 2 ^ 64) (selected ++ [out])
    else
      let p := popRandomValue (rng step) unusedDust
      let out := outputs.getD p.1 default
      selectLoop rng outputs neededMoney (step + 1) false unusedTransfers p.2
        ((foundMoney + out.amount) % 2 ^ 64) (selected ++ [out])
  else (foundMoney, selected)
termination_by
  unusedTransfers.length + unusedDust.length + (if selectOneDust then 1 else 0)
decreasing_by
  · have := popRandomValue_length_le (rng step) unusedDust
    simp only [hdust, if_true, if_false, Bool.false_eq_true]
    omega
  · have := popRandomValue_length (rng step) unusedTransfers hut
    simp only [if_false, Bool.false_eq_true]
    omega
  · have hud : unusedDust ≠ [] := by
      rcases hloop.2 with h | h
      · exact absurd h hut
      · exact h
    have := popRandomValue_length (rng step) unusedDust hud
    simp only [if_false, Bool.false_eq_true]
    omega

/-- WalletTransactionSender::selectTransfersToSend: partition the unlocked,
unused outputs into a spendable pool (amount above the dust threshold) and a
dust pool, force one dust pick when addDust is set and dust exists, then
draw randomly until the needed money is covered or both pools are empty.
isUsed is the transaction cache's used-coin predicate; rng the random
engine's successive draws. -/
def selectTransfersToSend (rng : Nat → Nat)
    (isUsed : TransactionOutputInformation → Bool)
    (outputs : List TransactionOutputInformation) (neededMoney : Nat)
    (addDust : Bool) (dust : Nat) : Nat × List TransactionOutputInformation :=
  let unusedTransfers := (List.range outputs.length).filter
    (fun i => !isUsed (outputs.getD i default)
      && decide (dust < (outputs.getD i default).amount))
  let unusedDust := (List.range outputs.length).filter
    (fun i => !isUsed (outputs.getD i default)
      && !decide (dust < (outputs.getD i default).amount))
  let selectOneDust := addDust && !unusedDust.isEmpty
  selectLoop rng outputs neededMoney 0 selectOneDust unusedTransfers unusedDust 0 []

/-! ### Transaction cache, events and the send orchestration -/

/-- Modelled from the spec: the external transaction record
(WalletUserTransactionsCache's TransactionInfo is not under src/): total
signed amount (negative = net spend), fee, extra blob, first transfer id and
count, unlock time. -/
structure TransactionInfo where
  totalAmount : Int
  fee : Nat
  extra : String
  firstTransferId : Nat
  transferCount : Nat
  unlockTime : Nat
deriving DecidableEq, Repr, Inhabited

/-- Modelled from the spec: the external transaction cache as the sender
sees it: the stored transaction records, the stored transfers, the log of
updateTransactionSendingState calls (finalizations of pending records) and
the coins marked as used. -/
structure Cache where
  transactions : List TransactionInfo
  transfers : List Transfer
  sendingStates : List (Nat × ErrorCode)
  usedOutputs : List TransactionOutputInformation
deriving DecidableEq, Repr, Inhabited

/-- The events the sender pushes: completion carrying (transactionId, error
code), and the two balance-update events. -/
inductive WalletEvent where
  | sendTransactionCompleted (transactionId : Nat) (ec : ErrorCode)
  | actualBalanceUpdated (balance : Nat)
  | pendingBalanceUpdated (balance : Nat)
deriving DecidableEq, Repr

/-- Modelled from the spec: addNewTransaction of the external cache records
a pending transaction (negative total = net spend) and returns its id. -/
def addNewTransaction (cache : Cache) (totalAmount : Nat) (fee : Nat)
    (extra : String) (transfers : List Transfer) (unlockTime : Nat) :
    Cache × Nat :=
  ({ cache with
      transactions := cache.transactions ++
        [{ totalAmount := -(totalAmount : Int), fee := fee, extra := extra,
           firstTransferId := cache.transfers.length,
           transferCount := transfers.length, unlockTime := unlockTime }]
      transfers := cache.transfers ++ transfers },
    cache.transactions.length)

/-- makeCompleteEvent: updateTransactionSendingState on the cache, then the
completion event for the transaction. -/
def makeCompleteEvent (cache : Cache) (transactionId : Nat) (ec : ErrorCode) :
    Cache × WalletEvent :=
  ({ cache with sendingStates := cache.sendingStates ++ [(transactionId, ec)] },
    .sendTransactionCompleted transactionId ec)

/-- updateTransaction: the selected coins become used (the hash and amount
updates of the record are owned by the external cache). -/
def updateTransaction (cache : Cache) (transactionId : Nat)
    (selectedTransfers : List TransactionOutputInformation) : Cache :=
  { cache with usedOutputs := cache.usedOutputs ++ selectedTransfers }

/-- The outcomes of the external collaborators doSendTransaction consults:
the address parser, the construct_tx primitive's success, the serialized
size check, and the balances read for the notifications (spec section 6). -/
structure SendEnv where
  parse : String → Option Nat
  constructOk : Bool
  oversized : Bool
  actualBalance : Nat
  pendingBalance : Nat

/-- constructTx: delegate to the external construct_tx primitive
(INTERNAL_WALLET_ERROR when it fails), then reject an oversized serialized
transaction (TRANSACTION_SIZE_TOO_BIG). -/
def constructTx (constructOk : Bool) (oversized : Bool) :
    Except WalletError Unit :=
  if !constructOk then .error .internalWalletError
  else if oversized then .error .transactionSizeTooBig
  else .ok ()

/-- notifyBalanceChanged: the two balance-update events. -/
def notifyBalanceChanged (env : SendEnv) : List WalletEvent :=
  [.actualBalanceUpdated env.actualBalance,
   .pendingBalanceUpdated env.pendingBalance]

/-- SendTransactionContext: the per-send state threaded through the
asynchronous pipeline. -/
structure SendTransactionContext where
  transactionId : Nat
  mixIn : Nat
  selectedTransfers : List TransactionOutputInformation
  outs : List (List (Nat × Nat))
  foundMoney : Nat
  dustPolicy : TxDustPolicy
deriving Repr, Inhabited

/-- doSendTransaction: on a stop signal, finalize with TX_CANCELLED and
return no request; otherwise prepare inputs, compute the change, split the
destinations, construct the transaction, mark the coins spent, notify the
balances and return the relay request; any error of the fallible steps
finalizes the pending record with its code and returns no request. The
returned Bool says whether the relay request was returned. -/
def doSendTransaction (stopping : Bool) (env : SendEnv) (accountAddress : Nat)
    (cache : Cache) (context : SendTransactionContext) :
    Cache × List WalletEvent × Bool :=
  if stopping then
    let r := makeCompleteEvent cache context.transactionId (some .txCancelled)
    (r.1, [r.2], false)
  else
    let transaction := cache.transactions.getD context.transactionId default
    let _sources := prepareInputs context.selectedTransfers context.outs context.mixIn
    let totalAmount := intToUInt64 (-transaction.totalAmount)
    let changeDts :=
      createChangeDestinations accountAddress totalAmount context.foundMoney ⟨0, 0⟩
    let transfersRange :=
      (cache.transfers.drop transaction.firstTransferId).take transaction.transferCount
    match splitDestinations env.parse transfersRange changeDts context.dustPolicy with
    | .error e =>
      let r := makeCompleteEvent cache context.transactionId (some e)
      (r.1, [r.2], false)
    | .ok _splittedDests =>
      match constructTx env.constructOk env.oversized with
      | .error e =>
        let r := makeCompleteEvent cache context.transactionId (some e)
        (r.1, [r.2], false)
      | .ok _ =>
        let cache2 := updateTransaction cache context.transactionId context.selectedTransfers
        (cache2, notifyBalanceChanged env, true)

/-- sendTransactionRandomOutsByAmount, the decoy-fetch callback: a stop
signal observed at entry overrides the response's error with TX_CANCELLED;
any error finalizes the pending record; a decoy set smaller than the mixin
for some amount finalizes with MIXIN_COUNT_TOO_BIG; otherwise the send
proceeds with doSendTransaction (which reads the stop flag afresh:
stoppingAtDoSend). -/
def sendTransactionRandomOutsByAmount (stoppingAtEntry stoppingAtDoSend : Bool)
    (env : SendEnv) (accountAddress : Nat) (cache : Cache)
    (context : SendTransactionContext) (ec : ErrorCode) :
    Cache × List WalletEvent × Bool :=
  let ec2 := if stoppingAtEntry then some WalletError.txCancelled else ec
  match ec2 with
  | some e =>
    let r := makeCompleteEvent cache context.transactionId (some e)
    (r.1, [r.2], false)
  | none =>
    if context.outs.any (fun outsForAmount => outsForAmount.length < context.mixIn) then
      let r := makeCompleteEvent cache context.transactionId (some .mixinCountTooBig)
      (r.1, [r.2], false)
    else
      doSendTransaction stoppingAtDoSend env accountAddress cache context

/-- relayTransactionCallback: when the stop flag is observed the callback
returns silently (no event, no cache mutation); otherwise the pending record
is finalized with the relay's error code and the completion event pushed. -/
def relayTransactionCallback (stopping : Bool) (cache : Cache)
    (transactionId : Nat) (ec : ErrorCode) : Cache × List WalletEvent :=
  if stopping then (cache, [])
  else
    let r := makeCompleteEvent cache transactionId ec
    (r.1, [r.2])

/-- The request makeSendRequest hands back to the driver. -/
inductive NextRequest where
  | getRandomOuts (amounts : List Nat) (outsCount : Nat)
  | relay
deriving DecidableEq, Repr

/-- makeSendRequest: reject an empty transfer list, an unparsable address,
and a bad or overflowing amount sum; select coins (dust included exactly
when mixIn = 0) and reject when the found money is short; only then record
the pending transaction and either emit the decoy-fetch request (mixIn > 0,
asking mixIn + 1 candidates per amount) or run doSendTransaction directly.
The Except result models the thrown error; the cache and events are
returned alongside (untouched on every validation error). -/
def makeSendRequest (stoppingAtDoSend : Bool) (env : SendEnv)
    (accountAddress : Nat) (rng : Nat → Nat)
    (outputs : List TransactionOutputInformation) (dustPolicy : TxDustPolicy)
    (cache : Cache) (transfers : List Transfer) (fee : Nat) (extra : String)
    (mixIn : Nat) (unlockTimestamp : Nat) :
    Except WalletError (Nat × Option NextRequest) × Cache × List WalletEvent :=
  if transfers.isEmpty then (.error .zeroDestination, cache, [])
  else if transfers.any (fun t => (env.parse t.address).isNone) then
    (.error .badAddress, cache, [])
  else
    match countNeededMoney fee transfers with
    | .error e => (.error e, cache, [])
    | .ok neededMoney =>
      let sel := selectTransfersToSend rng (fun out => cache.usedOutputs.contains out)
        outputs neededMoney (mixIn == 0) dustPolicy.dustThreshold
      if sel.1 < neededMoney then (.error .wrongAmount, cache, [])
      else
        let r := addNewTransaction cache neededMoney fee extra transfers unlockTimestamp
        let context : SendTransactionContext :=
          { transactionId := r.2, mixIn := mixIn, selectedTransfers := sel.2,
            outs := [], foundMoney := sel.1, dustPolicy := dustPolicy }
        if mixIn ≠ 0 then
          (.ok (r.2, some (.getRandomOuts
            (context.selectedTransfers.map TransactionOutputInformation.amount)
            (mixIn + 1))), r.1, [])
        else
          let d := doSendTransaction stoppingAtDoSend env accountAddress r.1 context
          (.ok (r.2, if d.2.2 then some .relay else none), d.1, d.2.1)

/-- The external driver of a send with mixin: the decoy response (error code
and per-amount candidate lists) resolves the pending request, the callback
runs, and when it hands back the relay request the relay response resolves
it in turn. s1, s2 and s3 are the values of the stop flag at its three read
points: the decoy-callback entry, the doSendTransaction entry and the
relay-callback entry. -/
def runSendMixin (s1 s2 s3 : Bool) (env : SendEnv) (accountAddress : Nat)
    (cache : Cache) (context : SendTransactionContext) (decoyEc : ErrorCode)
    (outsResponse : List (List (Nat × Nat))) (relayEc : ErrorCode) :
    Cache × List WalletEvent :=
  let context2 := { context with outs := outsResponse }
  let r := sendTransactionRandomOutsByAmount s1 s2 env accountAddress cache context2 decoyEc
  if r.2.2 then
    let r2 := relayTransactionCallback s3 r.1 context2.transactionId relayEc
    (r2.1, r.2.1 ++ r2.2)
  else (r.1, r.2.1)

/-- The external driver of a send without mixin: doSendTransaction runs
synchronously, then the relay response resolves the relay request if one was
returned. s2 and s3 are the stop flag's values at its two read points. -/
def runSendNoMixin (s2 s3 : Bool) (env : SendEnv) (accountAddress : Nat)
    (cache : Cache) (context : SendTransactionContext) (relayEc : ErrorCode) :
    Cache × List WalletEvent :=
  let r := doSendTransaction s2 env accountAddress cache context
  if r.2.2 then
    let r2 := relayTransactionCallback s3 r.1 context.transactionId relayEc
    (r2.1, r.2.1 ++ r2.2)
  else (r.1, r.2.1)

/-- Recognizer of the completion event of one transaction identifier. -/
def isCompletionEvent (transactionId : Nat) : WalletEvent → Bool
  | .sendTransactionCompleted id _ => id == transactionId
  | _ => false

/-- How many completion events a run emitted for one transaction id. -/
def completionCount (events : List WalletEvent) (transactionId : Nat) : Nat :=
  events.countP (isCompletionEvent transactionId)

/-! ### Dust/denomination splitter: conservation and dust bound -/

theorem decomposeGo_conserves (threshold amount order dustAcc : Nat) :
    (decomposeGo threshold amount order dustAcc).1.sum
      + (decomposeGo threshold amount order dustAcc).2
      = dustAcc + amount * order := by
  induction amount using Nat.strong_induction_on generalizing order dustAcc with
  | _ amount ih =>
    rw [decomposeGo]
    by_cases h : amount = 0
    · simp [h]
    · have hlt : amount / 10 < amount := Nat.div_lt_self (Nat.pos_of_ne_zero h) (by omega)
      have hmod : 10 * (amount / 10) + amount % 10 = amount := Nat.div_add_mod amount 10
      have hmod2 : amount * order = amount % 10 * order + amount / 10 * (order * 10) := by
        calc amount * order = (10 * (amount / 10) + amount % 10) * order := by rw [hmod]
        _ = amount % 10 * order + amount / 10 * (order * 10) := by ring
      simp only [h, dite_false]
      split
      · have hih := ih _ hlt (order * 10) (dustAcc + amount % 10 * order)
        rw [hih, hmod2]
        ring
      · split
        · have hih := ih _ hlt (order * 10) dustAcc
          rw [hih, hmod2]
          next hc =>
            rw [hc]
            ring
        · simp only [List.sum_cons]
          have hih := ih _ hlt (order * 10) dustAcc
          rw [hmod2]
          linarith [hih]

theorem decomposeGo_dust_le (threshold amount order dustAcc : Nat)
    (h : dustAcc ≤ threshold) :
    (decomposeGo threshold amount order dustAcc).2 ≤ threshold := by
  induction amount using Nat.strong_induction_on generalizing order dustAcc with
  | _ amount ih =>
    rw [decomposeGo]
    by_cases h0 : amount = 0
    · simp [h0, h]
    · have hlt : amount / 10 < amount := Nat.div_lt_self (Nat.pos_of_ne_zero h0) (by omega)
      simp only [h0, dite_false]
      split
      · exact ih _ hlt _ _ (by omega)
      · split
        · exact ih _ hlt _ _ h
        · exact ih _ hlt _ _ h

theorem transferEntries_sum (parse : String → Option Nat) (θ : Nat) (t : Transfer)
    (es : List TxDestinationEntry) (h : transferEntries parse θ t = .ok es) :
    (es.map TxDestinationEntry.amount).sum = intToUInt64 t.amount := by
  unfold transferEntries at h
  cases hp : parse t.address with
  | none => rw [hp] at h; exact absurd h (by simp)
  | some addr =>
    rw [hp] at h
    simp only [Except.ok.injEq] at h
    subst h
    have hc := decomposeGo_conserves θ (intToUInt64 t.amount) 1 0
    simp only [Nat.mul_one, Nat.zero_add] at hc
    have hcomp : (TxDestinationEntry.amount ∘ fun c =>
        ({ amount := c, addr := addr } : TxDestinationEntry)) = id := rfl
    simp only [decomposeAmountIntoDigits, List.map_append, List.sum_append,
      List.map_map, hcomp, List.map_id]
    by_cases hd : (decomposeGo θ (intToUInt64 t.amount) 1 0).2 = 0
    · simp [hd] at hc ⊢
      exact hc
    · simp [hd]
      exact hc

theorem splitTransfers_sum (parse : String → Option Nat) (θ : Nat) :
    ∀ (ts : List Transfer) (ds : List TxDestinationEntry),
      splitTransfers parse θ ts = .ok ds →
      (ds.map TxDestinationEntry.amount).sum
        = (ts.map (fun t => intToUInt64 t.amount)).sum := by
  intro ts
  induction ts with
  | nil => intro ds h; simp [splitTransfers] at h; simp [h]
  | cons t ts ih =>
    intro ds h
    simp only [splitTransfers] at h
    cases he : transferEntries parse θ t with
    | error e => rw [he] at h; exact absurd h (by simp)
    | ok es =>
      rw [he] at h
      cases hr : splitTransfers parse θ ts with
      | error e => rw [hr] at h; exact absurd h (by simp)
      | ok rest =>
        rw [hr] at h
        simp only [Except.ok.injEq] at h
        subst h
        simp only [List.map_append, List.sum_append, List.map_cons, List.sum_cons]
        rw [transferEntries_sum parse θ t es he, ih rest hr]

theorem digitSplitStrategy_sum (parse : String → Option Nat) (θ : Nat)
    (transfers : List Transfer) (changeDst : TxDestinationEntry)
    (ds : List TxDestinationEntry) (dust : Nat)
    (h : digitSplitStrategy parse transfers changeDst θ = .ok (ds, dust)) :
    (ds.map TxDestinationEntry.amount).sum + dust
      = (transfers.map (fun t => intToUInt64 t.amount)).sum + changeDst.amount := by
  unfold digitSplitStrategy at h
  cases hs : splitTransfers parse θ transfers with
  | error e => rw [hs] at h; exact absurd h (by simp)
  | ok dsts =>
    rw [hs] at h
    simp only [Except.ok.injEq, Prod.mk.injEq] at h
    obtain ⟨h1, h2⟩ := h
    subst h1; subst h2
    have hc := decomposeGo_conserves θ changeDst.amount 1 0
    simp only [Nat.mul_one, Nat.zero_add] at hc
    have hcomp : (TxDestinationEntry.amount ∘ fun c =>
        ({ amount := c, addr := changeDst.addr } : TxDestinationEntry)) = id := rfl
    simp only [decomposeAmountIntoDigits, List.map_append, List.sum_append,
      List.map_map, hcomp, List.map_id]
    rw [splitTransfers_sum parse θ transfers dsts hs]
    omega

theorem splitTransfers_error (parse : String → Option Nat) (θ : Nat) :
    ∀ (ts : List Transfer) (e : WalletError),
      splitTransfers parse θ ts = .error e → e = .badAddress := by
  intro ts
  induction ts with
  | nil => intro e h; exact absurd h (by simp [splitTransfers])
  | cons t ts ih =>
    intro e h
    simp only [splitTransfers] at h
    cases he : transferEntries parse θ t with
    | error e1 =>
      rw [he] at h
      simp only [Except.error.injEq] at h
      subst h
      unfold transferEntries at he
      cases hp : parse t.address with
      | none => rw [hp] at he; simpa using he.symm
      | some addr => rw [hp] at he; exact absurd he (by simp)
    | ok es =>
      rw [he] at h
      cases hr : splitTransfers parse θ ts with
      | error e2 =>
        rw [hr] at h
        simp only [Except.error.injEq] at h
        subst h
        exact ih _ hr
      | ok rest => rw [hr] at h; exact absurd h (by simp)

theorem digitSplitStrategy_error (parse : String → Option Nat) (θ : Nat)
    (transfers : List Transfer) (changeDst : TxDestinationEntry) (e : WalletError)
    (h : digitSplitStrategy parse transfers changeDst θ = .error e) :
    e = .badAddress := by
  unfold digitSplitStrategy at h
  cases hs : splitTransfers parse θ transfers with
  | error e1 =>
    rw [hs] at h
    simp only [Except.error.injEq] at h
    subst h
    exact splitTransfers_error parse θ transfers e1 hs
  | ok dsts => rw [hs] at h; exact absurd h (by simp)

/-- C2: for every decomposed amount — each requested transfer amount and the
change amount — the sum of the emitted destination entries' amounts plus the
leftover dust returned by the splitter equals the original amount: a
transfer's entries (chunks plus its emitted dust entry) sum exactly to its
amount, and the whole split's destination amounts plus the returned
leftoverDust equal the transfer amounts plus the change amount. -/
theorem claim2_splitter_round_trip (parse : String → Option Nat) (θ : Nat) :
    (∀ (t : Transfer) (es : List TxDestinationEntry),
        transferEntries parse θ t = .ok es →
        (es.map TxDestinationEntry.amount).sum = intToUInt64 t.amount)
    ∧ (∀ (transfers : List Transfer) (changeDst : TxDestinationEntry)
        (ds : List TxDestinationEntry) (dust : Nat),
        digitSplitStrategy parse transfers changeDst θ = .ok (ds, dust) →
        (ds.map TxDestinationEntry.amount).sum + dust
          = (transfers.map (fun t => intToUInt64 t.amount)).sum + changeDst.amount) :=
  ⟨transferEntries_sum parse θ, digitSplitStrategy_sum parse θ⟩

/-- Witness for C2 at a concrete split: one transfer of 12345 and change 678
with dust threshold 10 decompose to destinations summing to 12340 + 670 and
leftover dust 8. -/
theorem claim2_splitter_round_trip_witness :
    (([⟨40, 1⟩, ⟨300, 1⟩, ⟨2000, 1⟩, ⟨10000, 1⟩, ⟨5, 1⟩, ⟨70, 9⟩, ⟨600, 9⟩] :
        List TxDestinationEntry).map TxDestinationEntry.amount).sum + 8
      = (([⟨"a", 12345⟩] : List Transfer).map (fun t => intToUInt64 t.amount)).sum
          + (⟨678, 9⟩ : TxDestinationEntry).amount :=
  (claim2_splitter_round_trip (fun _ => some 1) 10).2 [⟨"a", 12345⟩] ⟨678, 9⟩
    [⟨40, 1⟩, ⟨300, 1⟩, ⟨2000, 1⟩, ⟨10000, 1⟩, ⟨5, 1⟩, ⟨70, 9⟩, ⟨600, 9⟩] 8
    (by simp [digitSplitStrategy, splitTransfers, transferEntries,
          decomposeAmountIntoDigits, decomposeGo, intToUInt64])

/-- C3 counterexample: with dust threshold 5 and change amount 5 the splitter
returns leftoverDust = 5, which is not strictly less than the threshold, and
splitDestinations does not abort (the send proceeds): the strict bound
`leftoverDust < dustThreshold` fails on the code. -/
theorem claim3_counterexample :
    digitSplitStrategy (fun _ => some 1) [] ⟨5, 0⟩ 5 = .ok ([], 5)
    ∧ ¬ ((5 : Nat) < 5)
    ∧ splitDestinations (fun _ => some 1) [] ⟨5, 0⟩ ⟨5, true, 0⟩ = .ok [] := by
  refine ⟨?_, by omega, ?_⟩ <;>
    simp [splitDestinations, digitSplitStrategy, splitTransfers,
      decomposeAmountIntoDigits, decomposeGo]

/-- C3 (amended): the splitter's leftoverDust never exceeds the dust
threshold (`leftoverDust ≤ dustThreshold`), and the fatal
INTERNAL_WALLET_ERROR abort of splitDestinations, which fires exactly when
the dust strictly exceeds the threshold, therefore never happens. -/
theorem claim3_dust_bound (parse : String → Option Nat) (transfers : List Transfer)
    (changeDst : TxDestinationEntry) (pol : TxDustPolicy) :
    (∀ (ds : List TxDestinationEntry) (dust : Nat),
        digitSplitStrategy parse transfers changeDst pol.dustThreshold = .ok (ds, dust) →
        dust ≤ pol.dustThreshold)
    ∧ splitDestinations parse transfers changeDst pol ≠ .error .internalWalletError := by
  have hbound : ∀ (ds : List TxDestinationEntry) (dust : Nat),
      digitSplitStrategy parse transfers changeDst pol.dustThreshold = .ok (ds, dust) →
      dust ≤ pol.dustThreshold := by
    intro ds dust h
    unfold digitSplitStrategy at h
    cases hs : splitTransfers parse pol.dustThreshold transfers with
    | error e => rw [hs] at h; exact absurd h (by simp)
    | ok dsts =>
      rw [hs] at h
      simp only [Except.ok.injEq, Prod.mk.injEq] at h
      have h2 := h.2
      subst h2
      exact decomposeGo_dust_le pol.dustThreshold changeDst.amount 1 0 (Nat.zero_le _)
  refine ⟨hbound, ?_⟩
  unfold splitDestinations
  cases hd : digitSplitStrategy parse transfers changeDst pol.dustThreshold with
  | error e =>
    have he := digitSplitStrategy_error parse pol.dustThreshold transfers changeDst e hd
    subst he
    simp
  | ok r =>
    have hle := hbound r.1 r.2 (by rw [hd])
    simp only [Nat.not_lt.mpr hle, if_false]
    split <;> simp

/-- Witness for C3 at a concrete split: the 12345/678 example stays within
the dust threshold 10 and splitDestinations does not abort. -/
theorem claim3_dust_bound_witness :
    (8 : Nat) ≤ (⟨10, false, 77⟩ : TxDustPolicy).dustThreshold
    ∧ splitDestinations (fun _ => some 1) [⟨"a", 12345⟩] ⟨678, 9⟩ ⟨10, false, 77⟩
        ≠ .error .internalWalletError :=
  ⟨(claim3_dust_bound (fun _ => some 1) [⟨"a", 12345⟩] ⟨678, 9⟩ ⟨10, false, 77⟩).1
      [⟨40, 1⟩, ⟨300, 1⟩, ⟨2000, 1⟩, ⟨10000, 1⟩, ⟨5, 1⟩, ⟨70, 9⟩, ⟨600, 9⟩] 8
      (by simp [digitSplitStrategy, splitTransfers, transferEntries,
            decomposeAmountIntoDigits, decomposeGo, intToUInt64]),
    (claim3_dust_bound (fun _ => some 1) [⟨"a", 12345⟩] ⟨678, 9⟩ ⟨10, false, 77⟩).2⟩

/-! ### Needed money, change destination, insufficient funds -/

theorem countNeededMoneyLoop_ok :
    ∀ (ts : List Transfer) (acc : Nat),
      (∀ t ∈ ts, 0 < t.amount) →
      acc + (ts.map (fun t => t.amount.toNat)).sum < 2 ^ 63 →
      countNeededMoneyLoop acc ts
        = .ok (acc + (ts.map (fun t => t.amount.toNat)).sum) := by
  intro ts
  induction ts with
  | nil => intro acc _ _; simp [countNeededMoneyLoop]
  | cons t ts ih =>
    intro acc hpos hsum
    have hp : 0 < t.amount := (hpos t (by simp))
    have hne : ¬t.amount = 0 := by omega
    have hneg : ¬t.amount < 0 := by omega
    simp only [List.map_cons, List.sum_cons] at hsum ⊢
    have hmod : (acc + t.amount.toNat) % 2 ^ 64 = acc + t.amount.toNat :=
      Nat.mod_eq_of_lt (by omega)
    have hval : uint64AsInt64 ((acc + t.amount.toNat) % 2 ^ 64)
        = ((acc + t.amount.toNat : Nat) : Int) := by
      rw [hmod]
      unfold uint64AsInt64
      rw [if_pos (by omega)]
    have hnolt : ¬ uint64AsInt64 ((acc + t.amount.toNat) % 2 ^ 64) < t.amount := by
      rw [hval]
      omega
    simp only [countNeededMoneyLoop, hne, if_false, hneg, hnolt]
    rw [hmod]
    rw [ih (acc + t.amount.toNat) (fun u hu => hpos u (by simp [hu])) (by omega)]
    simp only [Except.ok.injEq]
    omega

theorem countNeededMoneyLoop_overflow :
    ∀ (ts : List Transfer) (acc : Nat),
      acc < 2 ^ 64 →
      (∀ t ∈ ts, 0 < t.amount ∧ t.amount < 2 ^ 63) →
      ts ≠ [] →
      2 ^ 63 ≤ acc + (ts.map (fun t => t.amount.toNat)).sum →
      countNeededMoneyLoop acc ts = .error .sumOverflow := by
  intro ts
  induction ts with
  | nil => intro acc _ _ hne _; exact absurd rfl hne
  | cons t ts ih =>
    intro acc hacc hpos _ hsum
    have hp : 0 < t.amount := (hpos t (by simp)).1
    have hb : t.amount < 2 ^ 63 := (hpos t (by simp)).2
    have hne : ¬t.amount = 0 := by omega
    have hneg : ¬t.amount < 0 := by omega
    have haNb : t.amount.toNat < 2 ^ 63 := by omega
    simp only [List.map_cons, List.sum_cons] at hsum
    by_cases hsm : acc + t.amount.toNat < 2 ^ 63
    · have hmod : (acc + t.amount.toNat) % 2 ^ 64 = acc + t.amount.toNat :=
        Nat.mod_eq_of_lt (by omega)
      have hnolt : ¬ uint64AsInt64 ((acc + t.amount.toNat) % 2 ^ 64) < t.amount := by
        rw [hmod]
        unfold uint64AsInt64
        rw [if_pos (by omega)]
        omega
      simp only [countNeededMoneyLoop, hne, if_false, hneg, hnolt]
      rw [hmod]
      have hts : ts ≠ [] := by
        intro h
        subst h
        simp at hsum
        omega
      exact ih (acc + t.amount.toNat) (by omega)
        (fun u hu => hpos u (by simp [hu])) hts (by omega)
    · have hlt : uint64AsInt64 ((acc + t.amount.toNat) % 2 ^ 64) < t.amount := by
        by_cases hwrap : acc + t.amount.toNat < 2 ^ 64
        · rw [Nat.mod_eq_of_lt hwrap]
          unfold uint64AsInt64
          rw [if_neg (by omega)]
          omega
        · have hmod : (acc + t.amount.toNat) % 2 ^ 64 = acc + t.amount.toNat - 2 ^ 64 := by
            omega
          rw [hmod]
          unfold uint64AsInt64
          rw [if_pos (by omega)]
          omega
      simp only [countNeededMoneyLoop, hne, if_false, hneg, hlt, if_true]



/-- C7 -/
theorem claim7_needed_money (fee : Nat) (transfers : List Transfer)
    (hfee : fee < 2 ^ 64)
    (hamounts : ∀ t ∈ transfers, 0 < t.amount ∧ t.amount < 2 ^ 63)
    (hne : transfers ≠ []) :
    (fee + (transfers.map (fun t => t.amount.toNat)).sum < 2 ^ 63 →
      countNeededMoney fee transfers
        = .ok (fee + (transfers.map (fun t => t.amount.toNat)).sum))
    ∧ (2 ^ 63 ≤ fee + (transfers.map (fun t => t.amount.toNat)).sum →
      countNeededMoney fee transfers = .error .sumOverflow
      ∧ ∀ (sd : Bool) (env : SendEnv) (accountAddress : Nat) (rng : Nat → Nat)
          (outputs : List TransactionOutputInformation) (pol : TxDustPolicy)
          (cache : Cache) (extra : String) (mixIn ut : Nat),
          (∀ t ∈ transfers, (env.parse t.address).isSome) →
          makeSendRequest sd env accountAddress rng outputs pol cache transfers
              fee extra mixIn ut
            = (.error .sumOverflow, cache, [])) := by
  constructor
  · intro hsum
    exact countNeededMoneyLoop_ok transfers fee (fun t ht => (hamounts t ht).1) hsum
  · intro hsum
    have hcnt : countNeededMoney fee transfers = .error .sumOverflow :=
      countNeededMoneyLoop_overflow transfers fee hfee hamounts hne hsum
    refine ⟨hcnt, ?_⟩
    intro sd env accountAddress rng outputs pol cache extra mixIn ut hparse
    have hempty : transfers.isEmpty = false := by
      cases transfers with
      | nil => exact absurd rfl hne
      | cons t ts => rfl
    have hany : transfers.any (fun t => (env.parse t.address).isNone) = false := by
      rw [List.any_eq_false]
      intro t ht
      rcases Option.isSome_iff_exists.mp (hparse t ht) with ⟨v, hv⟩
      simp [hv]
    unfold makeSendRequest
    rw [hempty, hany, hcnt]
    simp

/-- C7 witness -/
theorem claim7_needed_money_witness :
    countNeededMoney 0 [⟨"a", 2 ^ 63 - 1⟩, ⟨"b", 1⟩] = .error .sumOverflow :=
  ((claim7_needed_money 0 [⟨"a", 2 ^ 63 - 1⟩, ⟨"b", 1⟩] (by norm_num)
      (by decide) (by simp)).2 (by decide)).1

/-- C10 -/
theorem claim10_change_destination (accountAddress neededMoney foundMoney θ : Nat) :
    (neededMoney < foundMoney →
      createChangeDestinations accountAddress neededMoney foundMoney ⟨0, 0⟩
        = ⟨foundMoney - neededMoney, accountAddress⟩)
    ∧ (foundMoney = neededMoney →
      createChangeDestinations accountAddress neededMoney foundMoney ⟨0, 0⟩ = ⟨0, 0⟩
      ∧ ∀ (parse : String → Option Nat) (ts : List Transfer)
          (ds : List TxDestinationEntry),
          splitTransfers parse θ ts = .ok ds →
          digitSplitStrategy parse ts
              (createChangeDestinations accountAddress neededMoney foundMoney ⟨0, 0⟩) θ
            = .ok (ds, 0)) := by
  constructor
  · intro h
    simp [createChangeDestinations, h]
  · intro h
    have hnc : createChangeDestinations accountAddress neededMoney foundMoney ⟨0, 0⟩
        = ⟨0, 0⟩ := by
      simp [createChangeDestinations, h]
    refine ⟨hnc, ?_⟩
    intro parse ts ds hs
    rw [hnc]
    unfold digitSplitStrategy
    rw [hs]
    have hdec : decomposeAmountIntoDigits 0 θ = ([], 0) := by
      rw [decomposeAmountIntoDigits, decomposeGo]
      simp
    simp [hdec]

/-- C10 witness -/
theorem claim10_change_destination_witness :
    createChangeDestinations 77 1010 2000 ⟨0, 0⟩ = ⟨990, 77⟩
    ∧ createChangeDestinations 77 1010 1010 ⟨0, 0⟩ = ⟨0, 0⟩ :=
  ⟨(claim10_change_destination 77 1010 2000 0).1 (by norm_num),
   ((claim10_change_destination 77 1010 1010 0).2 rfl).1⟩

/-- C1 -/
theorem claim1_insufficient_funds (sd : Bool) (env : SendEnv) (accountAddress : Nat)
    (rng : Nat → Nat) (outputs : List TransactionOutputInformation)
    (pol : TxDustPolicy) (cache : Cache) (transfers : List Transfer)
    (fee : Nat) (extra : String) (mixIn ut neededMoney : Nat)
    (hne : transfers ≠ [])
    (haddr : ∀ t ∈ transfers, (env.parse t.address).isSome)
    (hcount : countNeededMoney fee transfers = .ok neededMoney)
    (hshort : (selectTransfersToSend rng (fun out => cache.usedOutputs.contains out)
        outputs neededMoney (mixIn == 0) pol.dustThreshold).1 < neededMoney) :
    makeSendRequest sd env accountAddress rng outputs pol cache transfers fee
        extra mixIn ut
      = (.error .wrongAmount, cache, []) := by
  have hempty : transfers.isEmpty = false := by
    cases transfers with
    | nil => exact absurd rfl hne
    | cons t ts => rfl
  have hany : transfers.any (fun t => (env.parse t.address).isNone) = false := by
    rw [List.any_eq_false]
    intro t ht
    rcases Option.isSome_iff_exists.mp (haddr t ht) with ⟨v, hv⟩
    simp [hv]
  unfold makeSendRequest
  rw [hempty, hany, hcount]
  simp only [Bool.false_eq_true, if_false]
  rw [if_pos hshort]

/-- C1 witness -/
theorem claim1_insufficient_funds_witness :
    makeSendRequest false ⟨fun _ => some 1, true, false, 0, 0⟩ 5 (fun _ => 0) []
        ⟨10, false, 0⟩ ⟨[], [], [], []⟩ [⟨"a", 1000⟩] 0 "" 0 0
      = (.error .wrongAmount, ⟨[], [], [], []⟩, []) :=
  claim1_insufficient_funds false ⟨fun _ => some 1, true, false, 0, 0⟩ 5 (fun _ => 0)
    [] ⟨10, false, 0⟩ ⟨[], [], [], []⟩ [⟨"a", 1000⟩] 0 "" 0 0 1000
    (by simp) (fun t ht => rfl)
    (by rfl)
    (by simp [selectTransfersToSend, selectLoop])


/-! ### Input preparer: sorted anonymity sets -/

theorem insertSortedOut_mem (e x : Nat × Nat) :
    ∀ l : List (Nat × Nat), x ∈ insertSortedOut e l → x = e ∨ x ∈ l := by
  intro l
  induction l with
  | nil => intro h; simp [insertSortedOut] at h; exact Or.inl h
  | cons f rest ih =>
    intro h
    simp only [insertSortedOut] at h
    split at h
    · rcases List.mem_cons.mp h with h | h
      · exact Or.inl h
      · exact Or.inr h
    · rcases List.mem_cons.mp h with h | h
      · exact Or.inr (by simp [h])
      · rcases ih h with h | h
        · exact Or.inl h
        · exact Or.inr (by simp [h])

theorem insertSortedOut_pairwise (e : Nat × Nat) :
    ∀ l : List (Nat × Nat), l.Pairwise (fun a b => a.1 ≤ b.1) →
      (insertSortedOut e l).Pairwise (fun a b => a.1 ≤ b.1) := by
  intro l
  induction l with
  | nil => intro _; simp [insertSortedOut]
  | cons f rest ih =>
    intro h
    rcases List.pairwise_cons.mp h with ⟨hf, hrest⟩
    simp only [insertSortedOut]
    split
    · next hlt =>
      refine List.pairwise_cons.mpr ⟨?_, h⟩
      intro g hg
      rcases List.mem_cons.mp hg with hg | hg
      · subst hg; omega
      · have := hf g hg
        omega
    · next hnlt =>
      refine List.pairwise_cons.mpr ⟨?_, ih hrest⟩
      intro g hg
      rcases insertSortedOut_mem e g rest hg with hg | hg
      · subst hg; omega
      · exact hf g hg

theorem sortOuts_pairwise :
    ∀ l : List (Nat × Nat), (sortOuts l).Pairwise (fun a b => a.1 ≤ b.1) := by
  intro l
  induction l with
  | nil => simp [sortOuts]
  | cons e rest ih => exact insertSortedOut_pairwise e (sortOuts rest) ih

theorem pushDecoys_sublist (r m : Nat) :
    ∀ (l : List (Nat × Nat)) (s : Nat), List.Sublist (pushDecoys r m l s) l := by
  intro l
  induction l with
  | nil => intro s; simp [pushDecoys]
  | cons e rest ih =>
    intro s
    simp only [pushDecoys]
    split
    · exact (ih s).cons e
    · split
      · exact (List.nil_sublist rest).cons₂ e
      · exact (ih (s + 1)).cons₂ e

theorem pushDecoys_ne (r m : Nat) :
    ∀ (l : List (Nat × Nat)) (s : Nat), ∀ e ∈ pushDecoys r m l s, e.1 ≠ r := by
  intro l
  induction l with
  | nil => intro s e he; simp [pushDecoys] at he
  | cons f rest ih =>
    intro s e he
    simp only [pushDecoys] at he
    split at he
    · exact ih s e he
    · next hne =>
      split at he
      · simp at he
        subst he
        exact hne
      · rcases List.mem_cons.mp he with he | he
        · subst he; exact hne
        · exact ih (s + 1) e he

theorem pushDecoys_length (r m : Nat) :
    ∀ (l : List (Nat × Nat)) (s : Nat), s < m →
      (pushDecoys r m l s).length + s ≤ m := by
  intro l
  induction l with
  | nil => intro s h; simp [pushDecoys]; omega
  | cons e rest ih =>
    intro s h
    simp only [pushDecoys]
    split
    · exact ih s h
    · split
      · next h2 => simp; omega
      · next h2 =>
        have := ih (s + 1) (by omega)
        simp only [List.length_cons]
        omega

theorem insertReal_perm (real : Nat × Nat) :
    ∀ l : List (Nat × Nat), (insertReal real l).Perm (real :: l) := by
  intro l
  induction l with
  | nil => simp [insertReal]
  | cons e rest ih =>
    simp only [insertReal]
    split
    · exact List.Perm.refl _
    · exact List.Perm.trans (ih.cons e) (List.Perm.swap real e rest)

theorem insertPos_le_length (r : Nat) :
    ∀ l : List (Nat × Nat), insertPos r l ≤ l.length := by
  intro l
  induction l with
  | nil => simp [insertPos]
  | cons e rest ih =>
    simp only [insertPos]
    split
    · simp
    · simp only [List.length_cons]; omega

theorem insertReal_eq (r key : Nat) :
    ∀ l : List (Nat × Nat),
      insertReal (r, key) l
        = l.take (insertPos r l) ++ (r, key) :: l.drop (insertPos r l) := by
  intro l
  induction l with
  | nil => simp [insertReal, insertPos]
  | cons e rest ih =>
    simp only [insertReal, insertPos]
    split
    · simp
    · rw [List.take_succ_cons, List.drop_succ_cons, ih]
      simp

theorem insertPos_sorted (r : Nat) :
    ∀ l : List (Nat × Nat), l.Pairwise (fun a b => a.1 ≤ b.1) →
      insertPos r l = l.countP (fun e => decide (e.1 < r)) := by
  intro l
  induction l with
  | nil => intro _; simp [insertPos]
  | cons e rest ih =>
    intro h
    rcases List.pairwise_cons.mp h with ⟨hf, hrest⟩
    simp only [insertPos, List.countP_cons]
    split
    · next hle =>
      have h1 : (decide (e.1 < r)) = false := by simp; omega
      have h2 : rest.countP (fun e => decide (e.1 < r)) = 0 := by
        rw [List.countP_eq_zero]
        intro a ha
        have := hf a ha
        simp
        omega
      simp [h1, h2]
    · next hgt =>
      have h1 : (decide (e.1 < r)) = true := by simp; omega
      simp [ih hrest, h1]



theorem insertReal_spec (r key : Nat) (decoys : List (Nat × Nat))
    (hpw : decoys.Pairwise (fun a b => a.1 ≤ b.1))
    (hne : ∀ e ∈ decoys, e.1 ≠ r) :
    insertPos r decoys
        = (insertReal (r, key) decoys).countP (fun e => decide (e.1 < r))
    ∧ (insertReal (r, key) decoys).get? (insertPos r decoys) = some (r, key)
    ∧ (insertReal (r, key) decoys).countP (fun e => decide (e.1 = r)) = 1
    ∧ (insertReal (r, key) decoys).length = decoys.length + 1 := by
  have hperm := insertReal_perm (r, key) decoys
  refine ⟨?_, ?_, ?_, ?_⟩
  · rw [hperm.countP_eq, List.countP_cons]
    simp only [decide_eq_true_eq]
    rw [insertPos_sorted r decoys hpw]
    simp
  · rw [insertReal_eq]
    have hle := insertPos_le_length r decoys
    have hlen : (decoys.take (insertPos r decoys)).length = insertPos r decoys := by
      simp [List.length_take]
      omega
    rw [List.get?_append_right (by omega)]
    simp [hlen]
  · rw [hperm.countP_eq, List.countP_cons]
    have h0 : decoys.countP (fun e => decide (e.1 = r)) = 0 := by
      rw [List.countP_eq_zero]
      intro e he
      simpa using hne e he
    simp [h0]
  · rw [hperm.length_eq]
    simp

theorem prepareOne_spec (mixIn : Nat) (td : TransactionOutputInformation)
    (o : Option (List (Nat × Nat))) (h : o = none ∨ 1 ≤ mixIn) :
    (prepareOne mixIn td o).realOutput
        = (prepareOne mixIn td o).outputs.countP
            (fun e => decide (e.1 < td.globalOutputIndex))
    ∧ (prepareOne mixIn td o).outputs.get? (prepareOne mixIn td o).realOutput
        = some (td.globalOutputIndex, td.outputKey)
    ∧ (prepareOne mixIn td o).outputs.countP
        (fun e => decide (e.1 = td.globalOutputIndex)) = 1
    ∧ (prepareOne mixIn td o).outputs.length ≤ mixIn + 1 := by
  cases o with
  | none =>
    have hout : (prepareOne mixIn td none).outputs
        = insertReal (td.globalOutputIndex, td.outputKey) [] := rfl
    have hreal : (prepareOne mixIn td none).realOutput
        = insertPos td.globalOutputIndex [] := rfl
    have hs := insertReal_spec td.globalOutputIndex td.outputKey []
      (by simp) (by simp)
    rw [hout, hreal]
    exact ⟨hs.1, hs.2.1, hs.2.2.1, by rw [hs.2.2.2, List.length_nil]; omega⟩
  | some l =>
    have hout : (prepareOne mixIn td (some l)).outputs
        = insertReal (td.globalOutputIndex, td.outputKey)
            (pushDecoys td.globalOutputIndex mixIn (sortOuts l) 0) := rfl
    have hreal : (prepareOne mixIn td (some l)).realOutput
        = insertPos td.globalOutputIndex
            (pushDecoys td.globalOutputIndex mixIn (sortOuts l) 0) := rfl
    have hm : 1 ≤ mixIn := by
      rcases h with h | h
      · exact absurd h (by simp)
      · exact h
    have hpw : (pushDecoys td.globalOutputIndex mixIn (sortOuts l) 0).Pairwise
        (fun a b => a.1 ≤ b.1) :=
      (sortOuts_pairwise l).sublist (pushDecoys_sublist _ _ (sortOuts l) 0)
    have hne := pushDecoys_ne td.globalOutputIndex mixIn (sortOuts l) 0
    have hlen : (pushDecoys td.globalOutputIndex mixIn (sortOuts l) 0).length ≤ mixIn := by
      have := pushDecoys_length td.globalOutputIndex mixIn (sortOuts l) 0 (by omega)
      omega
    have hs := insertReal_spec td.globalOutputIndex td.outputKey _ hpw hne
    rw [hout, hreal]
    exact ⟨hs.1, hs.2.1, hs.2.2.1, by rw [hs.2.2.2]; omega⟩

/-- C4 -/
theorem claim4_prepared_source_entries
    (selectedTransfers : List TransactionOutputInformation)
    (outs : List (List (Nat × Nat))) (mixIn : Nat)
    (h : outs = [] ∨ 1 ≤ mixIn) :
    ∀ src ∈ prepareInputs selectedTransfers outs mixIn,
      ∃ td ∈ selectedTransfers,
        src.realOutput
            = src.outputs.countP (fun e => decide (e.1 < td.globalOutputIndex))
        ∧ src.outputs.get? src.realOutput
            = some (td.globalOutputIndex, td.outputKey)
        ∧ src.outputs.countP (fun e => decide (e.1 = td.globalOutputIndex)) = 1
        ∧ src.outputs.length ≤ mixIn + 1 := by
  intro src hsrc
  unfold prepareInputs at hsrc
  by_cases hout : outs.isEmpty
  · rw [if_pos hout] at hsrc
    rcases List.mem_map.mp hsrc with ⟨td, htd, hsrceq⟩
    subst hsrceq
    exact ⟨td, htd, prepareOne_spec mixIn td none (Or.inl rfl)⟩
  · rw [if_neg hout] at hsrc
    have hm : 1 ≤ mixIn := by
      rcases h with h | h
      · subst h; simp at hout
      · exact h
    rcases List.mem_map.mp hsrc with ⟨p, hp, hsrceq⟩
    subst hsrceq
    rcases p with ⟨td, o⟩
    have htd := (List.of_mem_zip hp).1
    exact ⟨td, htd, prepareOne_spec mixIn td (some o) (Or.inr hm)⟩

/-- C4 witness -/
theorem claim4_prepared_source_entries_witness :
    ∃ td ∈ [(⟨100, 5, 77, 88, 2⟩ : TransactionOutputInformation)],
      (⟨100, [(3, 11), (5, 77), (9, 12)], 88, 1, 2⟩ : TxSourceEntry).realOutput
          = (⟨100, [(3, 11), (5, 77), (9, 12)], 88, 1, 2⟩ : TxSourceEntry).outputs.countP
              (fun e => decide (e.1 < td.globalOutputIndex))
      ∧ (⟨100, [(3, 11), (5, 77), (9, 12)], 88, 1, 2⟩ : TxSourceEntry).outputs.get?
            (⟨100, [(3, 11), (5, 77), (9, 12)], 88, 1, 2⟩ : TxSourceEntry).realOutput
          = some (td.globalOutputIndex, td.outputKey)
      ∧ (⟨100, [(3, 11), (5, 77), (9, 12)], 88, 1, 2⟩ : TxSourceEntry).outputs.countP
            (fun e => decide (e.1 = td.globalOutputIndex)) = 1
      ∧ (⟨100, [(3, 11), (5, 77), (9, 12)], 88, 1, 2⟩ : TxSourceEntry).outputs.length ≤ 2 + 1 :=
  claim4_prepared_source_entries [⟨100, 5, 77, 88, 2⟩] [[(3, 11), (9, 12), (5, 13)]] 2
    (Or.inr (by omega)) ⟨100, [(3, 11), (5, 77), (9, 12)], 88, 1, 2⟩ (by decide)


/-! ### Coin selector -/

theorem getD_last_of_ne_nil (l : List Nat) (h : l ≠ []) :
    l.getD (l.length - 1) 0 = l.getLast h := by
  have hlen : 0 < l.length := List.length_pos.mpr h
  rw [List.getD_eq_getElem l 0 (by omega), List.getLast_eq_getElem]

theorem popRandomValue_perm (r : Nat) (vec : List Nat) (h : vec ≠ []) :
    ((popRandomValue r vec).1 :: (popRandomValue r vec).2).Perm vec := by
  cases vec with
  | nil => exact absurd rfl h
  | cons x xs =>
    have hlen : 0 < (x :: xs).length := by simp
    have hidx : r % (x :: xs).length < (x :: xs).length := Nat.mod_lt _ hlen
    simp only [popRandomValue]
    split
    · next hlast =>
      have hidx1 : r % (x :: xs).length = (x :: xs).length - 1 := by omega
      rw [hidx1, getD_last_of_ne_nil (x :: xs) h]
      have hsplit := List.dropLast_append_getLast (l := x :: xs) h
      calc ((x :: xs).getLast h :: (x :: xs).dropLast).Perm
            ((x :: xs).dropLast ++ [(x :: xs).getLast h]) :=
          (List.perm_append_singleton _ _).symm
      _ = x :: xs := hsplit
    · next hlast =>
      set L := x :: xs with hL
      set idx := r % L.length with hidxdef
      have hidx2 : idx + 1 < L.length := by omega
      have hw : L.getLastD 0 = L.getLast h := by
        rw [List.getLastD_eq_getLast?, List.getLast?_eq_getLast L h]
        rfl
      have hset : L.set idx (L.getLastD 0)
          = L.take idx ++ L.getLast h :: L.drop (idx + 1) := by
        rw [List.set_eq_take_cons_drop _ hidx, hw]
      have hLdec : L.take idx ++ L[idx] :: L.drop (idx + 1) = L := by
        rw [List.getElem_cons_drop L idx hidx, List.take_append_drop]
      have hBne : L.drop (idx + 1) ≠ [] := by
        apply List.ne_nil_of_length_pos
        rw [List.length_drop]
        omega
      have hBlast : (L.drop (idx + 1)).getLast hBne = L.getLast h :=
        List.getLast_drop hBne
      have hdl : (L.take idx ++ L.getLast h :: L.drop (idx + 1)).dropLast
          = L.take idx ++ L.getLast h :: (L.drop (idx + 1)).dropLast := by
        rw [List.dropLast_append]
        simp only [List.isEmpty_cons, Bool.false_eq_true, if_false]
        rw [List.dropLast_cons_of_ne_nil hBne]
      have hB : (L.drop (idx + 1)).dropLast ++ [L.getLast h] = L.drop (idx + 1) := by
        conv_rhs => rw [← List.dropLast_append_getLast (l := L.drop (idx + 1)) hBne]
        rw [hBlast]
      have hfinal : L.take idx
          ++ L[idx] :: ((L.drop (idx + 1)).dropLast ++ [L.getLast h]) = L := by
        rw [hB, hLdec]
      have p1 : (L[idx] :: (L.take idx ++ L.getLast h :: (L.drop (idx + 1)).dropLast)).Perm
          (L.take idx ++ L[idx] :: L.getLast h :: (L.drop (idx + 1)).dropLast) :=
        List.perm_middle.symm
      have p2 : (L.take idx ++ L[idx] :: L.getLast h :: (L.drop (idx + 1)).dropLast).Perm
          (L.take idx ++ L[idx] :: ((L.drop (idx + 1)).dropLast ++ [L.getLast h])) :=
        List.Perm.append_left _
          (((List.perm_append_singleton (L.getLast h)
            ((L.drop (idx + 1)).dropLast)).symm).cons L[idx])
      rw [List.getD_eq_getElem L 0 hidx, hset, hdl]
      exact (p1.trans p2).trans (by rw [hfinal])


theorem popRandomValue_head_mem (r : Nat) (vec : List Nat) (h : vec ≠ []) :
    (popRandomValue r vec).1 ∈ vec :=
  (popRandomValue_perm r vec h).mem_iff.mp (by simp)

theorem popRandomValue_rest_mem (r : Nat) (vec : List Nat) (h : vec ≠ [])
    (j : Nat) (hj : j ∈ (popRandomValue r vec).2) : j ∈ vec :=
  (popRandomValue_perm r vec h).mem_iff.mp (by simp [hj])

theorem popRandomValue_sum (r : Nat) (vec : List Nat) (h : vec ≠ [])
    (g : Nat → Nat) :
    g (popRandomValue r vec).1 + ((popRandomValue r vec).2.map g).sum
      = (vec.map g).sum := by
  have := ((popRandomValue_perm r vec h).map g).sum_eq
  simpa using this

theorem selectLoop_spec (rng : Nat → Nat)
    (outputs : List TransactionOutputInformation) (neededMoney : Nat)
    (isUsed : TransactionOutputInformation → Bool) :
    ∀ (step : Nat) (selectOneDust : Bool) (unusedTransfers unusedDust : List Nat)
      (foundMoney : Nat) (selected : List TransactionOutputInformation),
      (∀ i ∈ unusedTransfers ++ unusedDust,
        isUsed (outputs.getD i default) = false) →
      (selectOneDust = true → unusedDust ≠ []) →
      foundMoney = (selected.map TransactionOutputInformation.amount).sum % 2 ^ 64 →
      (∀ k < selected.length,
        ((selected.take k).map TransactionOutputInformation.amount).sum % 2 ^ 64
          < neededMoney) →
      (∀ c ∈ selected, isUsed c = false) →
      (selectLoop rng outputs neededMoney step selectOneDust unusedTransfers
          unusedDust foundMoney selected).1
          = ((selectLoop rng outputs neededMoney step selectOneDust unusedTransfers
              unusedDust foundMoney selected).2.map
                TransactionOutputInformation.amount).sum % 2 ^ 64
      ∧ (∀ c ∈ (selectLoop rng outputs neededMoney step selectOneDust
            unusedTransfers unusedDust foundMoney selected).2, isUsed c = false)
      ∧ (neededMoney ≤ (selectLoop rng outputs neededMoney step selectOneDust
            unusedTransfers unusedDust foundMoney selected).1
          ∨ (selectLoop rng outputs neededMoney step selectOneDust unusedTransfers
              unusedDust foundMoney selected).1
            = (foundMoney + ((unusedTransfers ++ unusedDust).map
                (fun i => (outputs.getD i default).amount)).sum) % 2 ^ 64)
      ∧ ∀ k < (selectLoop rng outputs neededMoney step selectOneDust
            unusedTransfers unusedDust foundMoney selected).2.length,
          (((selectLoop rng outputs neededMoney step selectOneDust unusedTransfers
              unusedDust foundMoney selected).2.take k).map
            TransactionOutputInformation.amount).sum % 2 ^ 64 < neededMoney := by
  intro step selectOneDust unusedTransfers unusedDust foundMoney selected
  induction step, selectOneDust, unusedTransfers, unusedDust, foundMoney, selected
    using selectLoop.induct rng outputs neededMoney with
  | case1 step UT UD f sel hcond p out ih =>
    intro hinv hdust hf hpfx hsel
    have hne : UD ≠ [] := hdust rfl
    have hpval : p = popRandomValue (rng step) UD := rfl
    have houtval : out = outputs.getD p.1 default := rfl
    have hstep : selectLoop rng outputs neededMoney step true UT UD f sel
        = selectLoop rng outputs neededMoney (step + 1) false UT p.2
            ((f + out.amount) % 2 ^ 64) (sel ++ [out]) := by
      rw [selectLoop, dif_pos hcond, dif_pos rfl]
    have houtmem : p.1 ∈ UD := by
      rw [hpval]
      exact popRandomValue_head_mem (rng step) UD hne
    have hrestmem : ∀ j ∈ p.2, j ∈ UD := by
      intro j hj
      rw [hpval] at hj
      exact popRandomValue_rest_mem (rng step) UD hne j hj
    have houtunused : isUsed out = false := by
      rw [houtval]
      exact hinv p.1 (by simp [houtmem])
    have hsum : out.amount
        + (p.2.map (fun i => (outputs.getD i default).amount)).sum
        = (UD.map (fun i => (outputs.getD i default).amount)).sum := by
      rw [houtval, hpval]
      exact popRandomValue_sum (rng step) UD hne (fun i => (outputs.getD i default).amount)
    have hihargs1 : ∀ i ∈ UT ++ p.2,
        isUsed (outputs.getD i default) = false := by
      intro i hi
      rcases List.mem_append.mp hi with hi | hi
      · exact hinv i (by simp [hi])
      · exact hinv i (by simp [hrestmem i hi])
    have hihargs3 : (f + out.amount) % 2 ^ 64
        = ((sel ++ [out]).map TransactionOutputInformation.amount).sum % 2 ^ 64 := by
      rw [List.map_append, List.sum_append, hf]
      simp only [List.map_cons, List.map_nil, List.sum_cons, List.sum_nil,
        Nat.add_zero]
      omega
    have hihargs4 : ∀ k < (sel ++ [out]).length,
        (((sel ++ [out]).take k).map TransactionOutputInformation.amount).sum
            % 2 ^ 64 < neededMoney := by
      intro k hk
      simp only [List.length_append, List.length_cons, List.length_nil] at hk
      by_cases hkl : k < sel.length
      · rw [List.take_append_of_le_length (by omega)]
        exact hpfx k hkl
      · have hkeq : k = sel.length := by omega
        rw [hkeq, List.take_append_of_le_length (by omega), List.take_length, ← hf]
        exact hcond.1
    have hihargs5 : ∀ c ∈ sel ++ [out], isUsed c = false := by
      intro c hc
      rcases List.mem_append.mp hc with hc | hc
      · exact hsel c hc
      · simp at hc
        rw [hc]
        exact houtunused
    have ihres := ih hihargs1 (by simp) hihargs3 hihargs4 hihargs5
    rw [hstep]
    refine ⟨ihres.1, ihres.2.1, ?_, ihres.2.2.2⟩
    rcases ihres.2.2.1 with hcase | hcase
    · exact Or.inl hcase
    · right
      rw [hcase]
      simp only [List.map_append, List.sum_append]
      omega
  | case2 step b UT UD f sel hcond hb hut p out ih =>
    intro hinv hdust hf hpfx hsel
    have hne : UT ≠ [] := hut
    have hpval : p = popRandomValue (rng step) UT := rfl
    have houtval : out = outputs.getD p.1 default := rfl
    have hstep : selectLoop rng outputs neededMoney step b UT UD f sel
        = selectLoop rng outputs neededMoney (step + 1) false p.2 UD
            ((f + out.amount) % 2 ^ 64) (sel ++ [out]) := by
      rw [selectLoop, dif_pos hcond, dif_neg hb, dif_pos hut]
    have houtmem : p.1 ∈ UT := by
      rw [hpval]
      exact popRandomValue_head_mem (rng step) UT hne
    have hrestmem : ∀ j ∈ p.2, j ∈ UT := by
      intro j hj
      rw [hpval] at hj
      exact popRandomValue_rest_mem (rng step) UT hne j hj
    have houtunused : isUsed out = false := by
      rw [houtval]
      exact hinv p.1 (by simp [houtmem])
    have hsum : out.amount
        + (p.2.map (fun i => (outputs.getD i default).amount)).sum
        = (UT.map (fun i => (outputs.getD i default).amount)).sum := by
      rw [houtval, hpval]
      exact popRandomValue_sum (rng step) UT hne (fun i => (outputs.getD i default).amount)
    have hihargs1 : ∀ i ∈ p.2 ++ UD,
        isUsed (outputs.getD i default) = false := by
      intro i hi
      rcases List.mem_append.mp hi with hi | hi
      · exact hinv i (by simp [hrestmem i hi])
      · exact hinv i (by simp [hi])
    have hihargs3 : (f + out.amount) % 2 ^ 64
        = ((sel ++ [out]).map TransactionOutputInformation.amount).sum % 2 ^ 64 := by
      rw [List.map_append, List.sum_append, hf]
      simp only [List.map_cons, List.map_nil, List.sum_cons, List.sum_nil,
        Nat.add_zero]
      omega
    have hihargs4 : ∀ k < (sel ++ [out]).length,
        (((sel ++ [out]).take k).map TransactionOutputInformation.amount).sum
            % 2 ^ 64 < neededMoney := by
      intro k hk
      simp only [List.length_append, List.length_cons, List.length_nil] at hk
      by_cases hkl : k < sel.length
      · rw [List.take_append_of_le_length (by omega)]
        exact hpfx k hkl
      · have hkeq : k = sel.length := by omega
        rw [hkeq, List.take_append_of_le_length (by omega), List.take_length, ← hf]
        exact hcond.1
    have hihargs5 : ∀ c ∈ sel ++ [out], isUsed c = false := by
      intro c hc
      rcases List.mem_append.mp hc with hc | hc
      · exact hsel c hc
      · simp at hc
        rw [hc]
        exact houtunused
    have ihres := ih hihargs1 (by simp) hihargs3 hihargs4 hihargs5
    rw [hstep]
    refine ⟨ihres.1, ihres.2.1, ?_, ihres.2.2.2⟩
    rcases ihres.2.2.1 with hcase | hcase
    · exact Or.inl hcase
    · right
      rw [hcase]
      simp only [List.map_append, List.sum_append]
      omega
  | case3 step b UT UD f sel hcond hb hut p out ih =>
    intro hinv hdust hf hpfx hsel
    have hne : UD ≠ [] := by
      rcases hcond.2 with h | h
      · exact absurd h hut
      · exact h
    have hpval : p = popRandomValue (rng step) UD := rfl
    have houtval : out = outputs.getD p.1 default := rfl
    have hstep : selectLoop rng outputs neededMoney step b UT UD f sel
        = selectLoop rng outputs neededMoney (step + 1) false UT p.2
            ((f + out.amount) % 2 ^ 64) (sel ++ [out]) := by
      rw [selectLoop, dif_pos hcond, dif_neg hb, dif_neg hut]
    have houtmem : p.1 ∈ UD := by
      rw [hpval]
      exact popRandomValue_head_mem (rng step) UD hne
    have hrestmem : ∀ j ∈ p.2, j ∈ UD := by
      intro j hj
      rw [hpval] at hj
      exact popRandomValue_rest_mem (rng step) UD hne j hj
    have houtunused : isUsed out = false := by
      rw [houtval]
      exact hinv p.1 (by simp [houtmem])
    have hsum : out.amount
        + (p.2.map (fun i => (outputs.getD i default).amount)).sum
        = (UD.map (fun i => (outputs.getD i default).amount)).sum := by
      rw [houtval, hpval]
      exact popRandomValue_sum (rng step) UD hne (fun i => (outputs.getD i default).amount)
    have hihargs1 : ∀ i ∈ UT ++ p.2,
        isUsed (outputs.getD i default) = false := by
      intro i hi
      rcases List.mem_append.mp hi with hi | hi
      · exact hinv i (by simp [hi])
      · exact hinv i (by simp [hrestmem i hi])
    have hihargs3 : (f + out.amount) % 2 ^ 64
        = ((sel ++ [out]).map TransactionOutputInformation.amount).sum % 2 ^ 64 := by
      rw [List.map_append, List.sum_append, hf]
      simp only [List.map_cons, List.map_nil, List.sum_cons, List.sum_nil,
        Nat.add_zero]
      omega
    have hihargs4 : ∀ k < (sel ++ [out]).length,
        (((sel ++ [out]).take k).map TransactionOutputInformation.amount).sum
            % 2 ^ 64 < neededMoney := by
      intro k hk
      simp only [List.length_append, List.length_cons, List.length_nil] at hk
      by_cases hkl : k < sel.length
      · rw [List.take_append_of_le_length (by omega)]
        exact hpfx k hkl
      · have hkeq : k = sel.length := by omega
        rw [hkeq, List.take_append_of_le_length (by omega), List.take_length, ← hf]
        exact hcond.1
    have hihargs5 : ∀ c ∈ sel ++ [out], isUsed c = false := by
      intro c hc
      rcases List.mem_append.mp hc with hc | hc
      · exact hsel c hc
      · simp at hc
        rw [hc]
        exact houtunused
    have ihres := ih hihargs1 (by simp) hihargs3 hihargs4 hihargs5
    rw [hstep]
    refine ⟨ihres.1, ihres.2.1, ?_, ihres.2.2.2⟩
    rcases ihres.2.2.1 with hcase | hcase
    · exact Or.inl hcase
    · right
      rw [hcase]
      simp only [List.map_append, List.sum_append]
      omega
  | case4 step b UT UD f sel hcond =>
    intro hinv hdust hf hpfx hsel
    rw [selectLoop, dif_neg hcond]
    refine ⟨hf, hsel, ?_, hpfx⟩
    by_cases hfound : neededMoney ≤ f
    · exact Or.inl hfound
    · right
      have hUT : UT = [] := by
        by_contra h
        exact hcond ⟨by omega, Or.inl h⟩
      have hUD : UD = [] := by
        by_contra h
        exact hcond ⟨by omega, Or.inr h⟩
      rw [hUT, hUD]
      have hflt : f < 2 ^ 64 := by
        rw [hf]
        exact Nat.mod_lt _ (by norm_num)
      simp only [List.append_nil, List.map_nil, List.sum_nil, Nat.add_zero]
      omega

/-- C8 (amended): coin selector: the returned foundMoney equals the sum of
the selected coins' amounts reduced modulo 2^64 (the uint64_t accumulator
wraps, so it can drop below the unreduced sum), no coin flagged used is ever
selected, and the loop stops as soon as the wrapped accumulator reaches
neededMoney or both pools are exhausted: every proper prefix of the
selection has wrapped sum short of neededMoney (no over-selection beyond the
one coin that crosses the threshold), and a short result means every unused
coin was taken. -/
theorem claim8_coin_selector (rng : Nat → Nat)
    (isUsed : TransactionOutputInformation → Bool)
    (outputs : List TransactionOutputInformation)
    (neededMoney : Nat) (addDust : Bool) (dust : Nat) :
    (selectTransfersToSend rng isUsed outputs neededMoney addDust dust).1
        = ((selectTransfersToSend rng isUsed outputs neededMoney addDust dust).2.map
            TransactionOutputInformation.amount).sum % 2 ^ 64
    ∧ (∀ c ∈ (selectTransfersToSend rng isUsed outputs neededMoney addDust dust).2,
        isUsed c = false)
    ∧ (neededMoney ≤ (selectTransfersToSend rng isUsed outputs neededMoney addDust dust).1
        ∨ (selectTransfersToSend rng isUsed outputs neededMoney addDust dust).1
          = (((List.range outputs.length).filter
              (fun i => !isUsed (outputs.getD i default))).map
              (fun i => (outputs.getD i default).amount)).sum % 2 ^ 64)
    ∧ ∀ k < (selectTransfersToSend rng isUsed outputs neededMoney addDust dust).2.length,
        (((selectTransfersToSend rng isUsed outputs neededMoney addDust dust).2.take k).map
          TransactionOutputInformation.amount).sum % 2 ^ 64 < neededMoney := by
  have hUT : (List.range outputs.length).filter
      (fun i => !isUsed (outputs.getD i default)
        && decide (dust < (outputs.getD i default).amount))
      = ((List.range outputs.length).filter
          (fun i => !isUsed (outputs.getD i default))).filter
          (fun i => decide (dust < (outputs.getD i default).amount)) := by
    rw [List.filter_filter]
    apply List.filter_congr
    intro a _
    exact Bool.and_comm _ _
  have hUD : (List.range outputs.length).filter
      (fun i => !isUsed (outputs.getD i default)
        && !decide (dust < (outputs.getD i default).amount))
      = ((List.range outputs.length).filter
          (fun i => !isUsed (outputs.getD i default))).filter
          (fun i => !decide (dust < (outputs.getD i default).amount)) := by
    rw [List.filter_filter]
    apply List.filter_congr
    intro a _
    exact Bool.and_comm _ _
  have hpart : ((List.range outputs.length).filter
      (fun i => !isUsed (outputs.getD i default)
        && decide (dust < (outputs.getD i default).amount))
      ++ (List.range outputs.length).filter
        (fun i => !isUsed (outputs.getD i default)
          && !decide (dust < (outputs.getD i default).amount))).Perm
      ((List.range outputs.length).filter
        (fun i => !isUsed (outputs.getD i default))) := by
    rw [hUT, hUD]
    exact List.filter_append_perm _ _
  have hinv : ∀ i ∈ (List.range outputs.length).filter
      (fun i => !isUsed (outputs.getD i default)
        && decide (dust < (outputs.getD i default).amount))
      ++ (List.range outputs.length).filter
        (fun i => !isUsed (outputs.getD i default)
          && !decide (dust < (outputs.getD i default).amount)),
      isUsed (outputs.getD i default) = false := by
    intro i hi
    rcases List.mem_append.mp hi with hi | hi <;>
    · have h2 := (List.mem_filter.mp hi).2
      simp only [Bool.and_eq_true, Bool.not_eq_true'] at h2
      exact h2.1
  have hdust : (addDust && !((List.range outputs.length).filter
      (fun i => !isUsed (outputs.getD i default)
        && !decide (dust < (outputs.getD i default).amount))).isEmpty) = true →
      (List.range outputs.length).filter
        (fun i => !isUsed (outputs.getD i default)
          && !decide (dust < (outputs.getD i default).amount)) ≠ [] := by
    intro h
    simp only [Bool.and_eq_true] at h
    intro hnil
    rw [hnil] at h
    simp at h
  have hres := selectLoop_spec rng outputs neededMoney isUsed 0
    (addDust && !((List.range outputs.length).filter
      (fun i => !isUsed (outputs.getD i default)
        && !decide (dust < (outputs.getD i default).amount))).isEmpty)
    ((List.range outputs.length).filter
      (fun i => !isUsed (outputs.getD i default)
        && decide (dust < (outputs.getD i default).amount)))
    ((List.range outputs.length).filter
      (fun i => !isUsed (outputs.getD i default)
        && !decide (dust < (outputs.getD i default).amount)))
    0 []
    hinv hdust (by simp) (by intro k hk; exact absurd hk (by simp)) (by simp)
  have hgoal : selectTransfersToSend rng isUsed outputs neededMoney addDust dust
      = selectLoop rng outputs neededMoney 0
        (addDust && !((List.range outputs.length).filter
          (fun i => !isUsed (outputs.getD i default)
            && !decide (dust < (outputs.getD i default).amount))).isEmpty)
        ((List.range outputs.length).filter
          (fun i => !isUsed (outputs.getD i default)
            && decide (dust < (outputs.getD i default).amount)))
        ((List.range outputs.length).filter
          (fun i => !isUsed (outputs.getD i default)
            && !decide (dust < (outputs.getD i default).amount)))
        0 [] := rfl
  rw [hgoal]
  refine ⟨hres.1, hres.2.1, ?_, hres.2.2.2⟩
  rcases hres.2.2.1 with hcase | hcase
  · exact Or.inl hcase
  · right
    rw [hcase, ← (hpart.map (fun i => (outputs.getD i default).amount)).sum_eq]
    simp

/-- C8 counterexample: the uint64_t accumulator wraps: with neededMoney 10
and unused coins of amounts 5 and 2^64 - 3 (both above the dust threshold),
the loop draws the coin of 5, stays short, draws the second coin, and the
accumulator wraps to 2; both pools are exhausted and the selector returns
foundMoney 2, strictly less than the true sum 2^64 + 2 of the selected
coins' amounts — refuting the claim's never-less-than-the-sum conjunct. -/
theorem claim8_counterexample :
    selectTransfersToSend (fun _ => 0) (fun _ => false)
        [⟨5, 0, 0, 0, 0⟩, ⟨2 ^ 64 - 3, 1, 0, 0, 0⟩] 10 false 0
      = (2, [⟨5, 0, 0, 0, 0⟩, ⟨2 ^ 64 - 3, 1, 0, 0, 0⟩])
    ∧ (2 : Nat) < (([⟨5, 0, 0, 0, 0⟩, ⟨2 ^ 64 - 3, 1, 0, 0, 0⟩] :
          List TransactionOutputInformation).map
          TransactionOutputInformation.amount).sum := by
  constructor
  · have h0 : selectTransfersToSend (fun _ => 0) (fun _ => false)
        [⟨5, 0, 0, 0, 0⟩, ⟨2 ^ 64 - 3, 1, 0, 0, 0⟩] 10 false 0
        = selectLoop (fun _ => 0) [⟨5, 0, 0, 0, 0⟩, ⟨2 ^ 64 - 3, 1, 0, 0, 0⟩]
            10 0 false [0, 1] [] 0 [] := rfl
    have h1 : selectLoop (fun _ => 0) [⟨5, 0, 0, 0, 0⟩, ⟨2 ^ 64 - 3, 1, 0, 0, 0⟩]
        10 0 false [0, 1] [] 0 []
        = selectLoop (fun _ => 0) [⟨5, 0, 0, 0, 0⟩, ⟨2 ^ 64 - 3, 1, 0, 0, 0⟩]
            10 1 false [1] [] 5 [⟨5, 0, 0, 0, 0⟩] := by
      rw [selectLoop, dif_pos ⟨by norm_num, Or.inl (by simp)⟩,
        dif_neg (by simp), dif_pos (by simp)]
      norm_num [popRandomValue, List.getD]
    have h2 : selectLoop (fun _ => 0) [⟨5, 0, 0, 0, 0⟩, ⟨2 ^ 64 - 3, 1, 0, 0, 0⟩]
        10 1 false [1] [] 5 [⟨5, 0, 0, 0, 0⟩]
        = selectLoop (fun _ => 0) [⟨5, 0, 0, 0, 0⟩, ⟨2 ^ 64 - 3, 1, 0, 0, 0⟩]
            10 2 false [] [] 2 [⟨5, 0, 0, 0, 0⟩, ⟨2 ^ 64 - 3, 1, 0, 0, 0⟩] := by
      rw [selectLoop, dif_pos ⟨by norm_num, Or.inl (by simp)⟩,
        dif_neg (by simp), dif_pos (by simp)]
      norm_num [popRandomValue, List.getD]
    have h3 : selectLoop (fun _ => 0) [⟨5, 0, 0, 0, 0⟩, ⟨2 ^ 64 - 3, 1, 0, 0, 0⟩]
        10 2 false [] [] 2 [⟨5, 0, 0, 0, 0⟩, ⟨2 ^ 64 - 3, 1, 0, 0, 0⟩]
        = (2, [⟨5, 0, 0, 0, 0⟩, ⟨2 ^ 64 - 3, 1, 0, 0, 0⟩]) := by
      rw [selectLoop, dif_neg (by simp)]
    exact h0.trans (h1.trans (h2.trans h3))
  · norm_num

/-! ### Orchestration: completion, cancellation, mixin check -/

theorem completionCount_single (transactionId id : Nat) (ec : ErrorCode) :
    completionCount [WalletEvent.sendTransactionCompleted id ec] transactionId ≤ 1 := by
  simp only [completionCount, isCompletionEvent, List.countP_cons, List.countP_nil]
  split <;> simp

theorem completionCount_balance (transactionId : Nat) (env : SendEnv) :
    completionCount (notifyBalanceChanged env) transactionId = 0 := by
  simp [completionCount, notifyBalanceChanged, isCompletionEvent,
    List.countP_cons, List.countP_nil]

theorem doSendTransaction_shape (stopping : Bool) (env : SendEnv)
    (accountAddress : Nat) (cache : Cache) (context : SendTransactionContext) :
    (∃ ec, (doSendTransaction stopping env accountAddress cache context).2
        = ([WalletEvent.sendTransactionCompleted context.transactionId ec], false))
    ∨ (doSendTransaction stopping env accountAddress cache context).2
        = (notifyBalanceChanged env, true) := by
  unfold doSendTransaction
  dsimp only
  split
  · exact Or.inl ⟨some .txCancelled, rfl⟩
  · split
    · exact Or.inl ⟨_, rfl⟩
    · split
      · exact Or.inl ⟨_, rfl⟩
      · exact Or.inr rfl

theorem doSendTransaction_completion (stopping : Bool) (env : SendEnv)
    (accountAddress : Nat) (cache : Cache) (context : SendTransactionContext)
    (transactionId : Nat) :
    completionCount (doSendTransaction stopping env accountAddress cache context).2.1
        transactionId ≤ 1
    ∧ ((doSendTransaction stopping env accountAddress cache context).2.2 = true →
        completionCount (doSendTransaction stopping env accountAddress cache
          context).2.1 transactionId = 0) := by
  rcases doSendTransaction_shape stopping env accountAddress cache context with
    ⟨ec, heq⟩ | heq
  · have h1 : (doSendTransaction stopping env accountAddress cache context).2.1
        = [WalletEvent.sendTransactionCompleted context.transactionId ec] :=
      congrArg Prod.fst heq
    have h2 : (doSendTransaction stopping env accountAddress cache context).2.2
        = false := congrArg Prod.snd heq
    rw [h1, h2]
    exact ⟨completionCount_single transactionId context.transactionId ec,
      by intro h; exact absurd h (by simp)⟩
  · have h1 : (doSendTransaction stopping env accountAddress cache context).2.1
        = notifyBalanceChanged env := congrArg Prod.fst heq
    rw [h1, completionCount_balance]
    exact ⟨by omega, fun _ => rfl⟩

theorem sendTransactionRandomOutsByAmount_shape (s1 s2 : Bool) (env : SendEnv)
    (accountAddress : Nat) (cache : Cache) (context : SendTransactionContext)
    (ec : ErrorCode) :
    (∃ ec2, (sendTransactionRandomOutsByAmount s1 s2 env accountAddress cache
        context ec).2
        = ([WalletEvent.sendTransactionCompleted context.transactionId ec2], false))
    ∨ (sendTransactionRandomOutsByAmount s1 s2 env accountAddress cache
        context ec).2
        = (notifyBalanceChanged env, true) := by
  unfold sendTransactionRandomOutsByAmount
  dsimp only
  split
  · exact Or.inl ⟨_, rfl⟩
  · split
    · exact Or.inl ⟨_, rfl⟩
    · exact doSendTransaction_shape s2 env accountAddress cache context

theorem sendTransactionRandomOutsByAmount_completion (s1 s2 : Bool) (env : SendEnv)
    (accountAddress : Nat) (cache : Cache) (context : SendTransactionContext)
    (ec : ErrorCode) (transactionId : Nat) :
    completionCount (sendTransactionRandomOutsByAmount s1 s2 env accountAddress
        cache context ec).2.1 transactionId ≤ 1
    ∧ ((sendTransactionRandomOutsByAmount s1 s2 env accountAddress cache
          context ec).2.2 = true →
        completionCount (sendTransactionRandomOutsByAmount s1 s2 env accountAddress
          cache context ec).2.1 transactionId = 0) := by
  rcases sendTransactionRandomOutsByAmount_shape s1 s2 env accountAddress cache
      context ec with ⟨ec2, heq⟩ | heq
  · have h1 : (sendTransactionRandomOutsByAmount s1 s2 env accountAddress cache
        context ec).2.1
        = [WalletEvent.sendTransactionCompleted context.transactionId ec2] :=
      congrArg Prod.fst heq
    have h2 : (sendTransactionRandomOutsByAmount s1 s2 env accountAddress cache
        context ec).2.2 = false := congrArg Prod.snd heq
    rw [h1, h2]
    exact ⟨completionCount_single transactionId context.transactionId ec2,
      by intro h; exact absurd h (by simp)⟩
  · have h1 : (sendTransactionRandomOutsByAmount s1 s2 env accountAddress cache
        context ec).2.1 = notifyBalanceChanged env := congrArg Prod.fst heq
    rw [h1, completionCount_balance]
    exact ⟨by omega, fun _ => rfl⟩

theorem relayTransactionCallback_completion (stopping : Bool) (cache : Cache)
    (txId transactionId : Nat) (ec : ErrorCode) :
    completionCount (relayTransactionCallback stopping cache txId ec).2
        transactionId ≤ 1
    ∧ (stopping = true →
        completionCount (relayTransactionCallback stopping cache txId ec).2
          transactionId = 0) := by
  unfold relayTransactionCallback
  split
  · simp [completionCount]
  · next hs =>
    exact ⟨completionCount_single transactionId txId ec, fun h => absurd h hs⟩

/-- C6: at most one completion event is ever emitted for a transaction
identifier, over every interleaving of the decoy response, the relay
response and the stop signal (read afresh at each of its check points), and
over every collaborator outcome. -/
theorem claim6_at_most_one_completion (s1 s2 s3 : Bool) (env : SendEnv)
    (accountAddress : Nat) (cache : Cache) (context : SendTransactionContext)
    (decoyEc : ErrorCode) (outsResponse : List (List (Nat × Nat)))
    (relayEc : ErrorCode) (transactionId : Nat) :
    completionCount (runSendMixin s1 s2 s3 env accountAddress cache context
        decoyEc outsResponse relayEc).2 transactionId ≤ 1
    ∧ completionCount (runSendNoMixin s2 s3 env accountAddress cache context
        relayEc).2 transactionId ≤ 1 := by
  constructor
  · unfold runSendMixin
    dsimp only
    have h1 := sendTransactionRandomOutsByAmount_completion s1 s2 env
      accountAddress cache { context with outs := outsResponse } decoyEc
      transactionId
    split
    · next hreq =>
      have h2 := relayTransactionCallback_completion s3
        (sendTransactionRandomOutsByAmount s1 s2 env accountAddress cache
          { context with outs := outsResponse } decoyEc).1
        { context with outs := outsResponse }.transactionId transactionId relayEc
      simp only [completionCount, List.countP_append] at h1 h2 ⊢
      have h0 := h1.2 hreq
      omega
    · exact h1.1
  · unfold runSendNoMixin
    dsimp only
    have h1 := doSendTransaction_completion s2 env accountAddress cache context
      transactionId
    split
    · next hreq =>
      have h2 := relayTransactionCallback_completion s3
        (doSendTransaction s2 env accountAddress cache context).1
        context.transactionId transactionId relayEc
      simp only [completionCount, List.countP_append] at h1 h2 ⊢
      have h0 := h1.2 hreq
      omega
    · exact h1.1

/-- C5 (amended): a stop signal observed at doSendTransaction entry or at the
decoy-fetch callback finalizes the pending record with TX_CANCELLED and emits
the one completion event; a stop observed at the relay callback is swallowed:
no event, no cache mutation, the pending record left as it was. -/
theorem claim5_cancellation_finalizes (env : SendEnv) (accountAddress : Nat)
    (cache : Cache) (context : SendTransactionContext) (transactionId : Nat)
    (s2 : Bool) (ec : ErrorCode) :
    doSendTransaction true env accountAddress cache context
      = ({ cache with sendingStates := cache.sendingStates
            ++ [(context.transactionId, some .txCancelled)] },
         [.sendTransactionCompleted context.transactionId (some .txCancelled)],
         false)
    ∧ sendTransactionRandomOutsByAmount true s2 env accountAddress cache context ec
      = ({ cache with sendingStates := cache.sendingStates
            ++ [(context.transactionId, some .txCancelled)] },
         [.sendTransactionCompleted context.transactionId (some .txCancelled)],
         false)
    ∧ relayTransactionCallback true cache transactionId ec = (cache, []) :=
  ⟨rfl, rfl, rfl⟩

/-- C5 counterexample: the stop signal raised between relay request emission
and the relay response (observed at the relay callback, a pending-callback
cancellation point) leaves the run with no cancellation finalization at all:
the sending-state log stays empty and only the balance events were emitted. -/
theorem claim5_counterexample :
    (runSendMixin false false true ⟨fun _ => some 1, true, false, 0, 0⟩ 5
        ⟨[⟨0, 0, "", 0, 0, 0⟩], [], [], []⟩ ⟨0, 1, [], [], 0, ⟨10, true, 0⟩⟩
        none [] none).1.sendingStates = []
    ∧ (runSendMixin false false true ⟨fun _ => some 1, true, false, 0, 0⟩ 5
        ⟨[⟨0, 0, "", 0, 0, 0⟩], [], [], []⟩ ⟨0, 1, [], [], 0, ⟨10, true, 0⟩⟩
        none [] none).2
      = [.actualBalanceUpdated 0, .pendingBalanceUpdated 0] := by
  constructor <;>
    simp [runSendMixin, sendTransactionRandomOutsByAmount, doSendTransaction,
      relayTransactionCallback, splitDestinations, digitSplitStrategy,
      splitTransfers, decomposeAmountIntoDigits, decomposeGo, constructTx,
      makeCompleteEvent, updateTransaction, notifyBalanceChanged,
      createChangeDestinations, intToUInt64, prepareInputs]

/-- C9: a decoy response in which some amount's decoy set is smaller than the
mixin finalizes the pending record with MIXIN_COUNT_TOO_BIG and emits that
completion event; no further step runs. -/
theorem claim9_mixin_count_too_big (s2 : Bool) (env : SendEnv)
    (accountAddress : Nat) (cache : Cache) (context : SendTransactionContext)
    (hshort : context.outs.any (fun o => o.length < context.mixIn) = true) :
    sendTransactionRandomOutsByAmount false s2 env accountAddress cache context none
      = ({ cache with sendingStates := cache.sendingStates
            ++ [(context.transactionId, some .mixinCountTooBig)] },
         [.sendTransactionCompleted context.transactionId (some .mixinCountTooBig)],
         false) := by
  unfold sendTransactionRandomOutsByAmount
  simp [hshort, makeCompleteEvent]

/-- C9 witness: mixin 5 with a 3-candidate decoy set for one amount. -/
theorem claim9_mixin_count_too_big_witness :
    sendTransactionRandomOutsByAmount false false
        ⟨fun _ => some 1, true, false, 0, 0⟩ 5 ⟨[], [], [], []⟩
        ⟨3, 5, [], [[(1, 1), (2, 2), (3, 3)]], 0, ⟨10, true, 0⟩⟩ none
      = (⟨[], [], [(3, some .mixinCountTooBig)], []⟩,
         [.sendTransactionCompleted 3 (some .mixinCountTooBig)], false) := by
  have h := claim9_mixin_count_too_big false ⟨fun _ => some 1, true, false, 0, 0⟩ 5
    ⟨[], [], [], []⟩ ⟨3, 5, [], [[(1, 1), (2, 2), (3, 3)]], 0, ⟨10, true, 0⟩⟩
    (by decide)
  exact h


end CryptoNote
